import Mathlib

/-!
# mkrename: symbol names and prototypes of the Sleef header generator

A shallow embedding of `src/libm/mkrename.c`.  A C string is the `String` of
its characters before the terminator; a `char*` that may be `NULL` is an
`Option String`.  Every `printf` appends its text to the standard output,
which is carried as a `String`.  A step that the C program cannot perform
with a defined result (a `%s` conversion of a `NULL` pointer, a read of an
`argv` slot that was not supplied) makes the embedded function return `none`.
Allocation failure in `malloc` is not modelled.
-/

set_option maxRecDepth 20000

namespace Mkrename

/-! ## getPairTypeName -/

/-- The copy loop of `getPairTypeName`: the first argument is what is left of
`typeName` from index `i` on, the second is the buffer written so far (up to
the write pointer `p`). -/
def getPairTypeName.loop : List Char → List Char → List Char
  | [], p => p
  | c :: rest, p => getPairTypeName.loop rest (p ++ [if c != ' ' then c else '_'])

/-- Embedding of `getPairTypeName`: `strcpy(ret, "Sleef_")`, the copy loop, then
`strcpy(p, "_2")`. -/
def getPairTypeName (typeName : String) : String :=
  String.mk (getPairTypeName.loop typeName.data "Sleef_".data ++ "_2".data)

/-- The spec's wording of the transform: every space becomes an underscore and
every other character stays. -/
def replaceSpaces (s : String) : String :=
  String.mk (s.data.map fun c => if c = ' ' then '_' else c)

/-! ## The descriptor table -/

/-- Modelled from the spec: the descriptor type of `funcproto.h`, a header that
is not among the sources.  It carries the fields `mkrename.c` reads: the base
name, the accuracy `ulp` (negative: no accuracy suffix), `ulpSuffix`, an index
into the 6-entry suffix table, and the category code `funcType`.  The table
`funcList` itself is a parameter of the embedding: the list of the entries
before the sentinel whose name is `NULL`. -/
structure funcSpec where
  name : String
  ulp : Int
  ulpSuffix : Fin 6
  funcType : Int
deriving DecidableEq

/-- The table `ulpSuffixStr` of `main`. -/
def ulpSuffixStr (i : Fin 6) : String :=
  ["", "_u1", "_u05", "_u35", "_u15", "_u3500"].get i

/-! ## printf conversions -/

/-- The conversion `%02d`: the decimal digits of the value, padded on the left
with zeros to a width of at least 2; a minus sign counts for the width and
comes first. -/
def fmt02d (n : Int) : String :=
  if n < 0 then "-" ++ String.mk (List.leftpad 1 '0' (Nat.toDigits 10 n.natAbs))
  else String.mk (List.leftpad 2 '0' (Nat.toDigits 10 n.toNat))

/-- The spec's wording of the accuracy code: `ulp` in decimal, zero-padded to
two digits. -/
def zeroPad2 (n : Nat) : String :=
  if n < 10 then "0" ++ toString n else toString n

/-! ## outputFunctionDeclaration -/

/-- The first `switch` of `outputFunctionDeclaration`: `none` is the initial
`NULL`, kept by a `funcType` outside 0..8. -/
def returnTypeOf (funcType : Int) (fpType fpPairType intType : String) : Option String :=
  match funcType with
  | 0 => some fpType
  | 1 => some fpType
  | 2 => some fpPairType
  | 3 => some fpType
  | 4 => some intType
  | 5 => some fpType
  | 6 => some fpPairType
  | 7 => some "int"
  | 8 => some "void*"
  | _ => none

/-- The second `switch`: the three argument type pointers, `none` for `NULL`. -/
def argumentTypesOf (funcType : Int) (fpType intType : String) :
    Option String × Option String × Option String :=
  match funcType with
  | 0 => (some fpType, none, none)
  | 1 => (some fpType, some fpType, none)
  | 2 => (some fpType, none, none)
  | 3 => (some fpType, some intType, none)
  | 4 => (some fpType, none, none)
  | 5 => (some fpType, some fpType, some fpType)
  | 6 => (some fpType, none, none)
  | 7 => (some "int", none, none)
  | 8 => (some "int", none, none)
  | _ => (none, none, none)

/-- The text `outputFunctionDeclaration` prints up to and including the opening
parenthesis, given a return type that is not `NULL`. -/
def declarationHead (f : funcSpec) ( atrPrefix : Option String) (fpLetter : Char)
    (vectorWidth returnType isaName : String) : String :=
  let out := "IMPORT CONST " ++ returnType ++ " Sleef_" ++
    (match atrPrefix with | some p => p | none => "") ++
    f.name ++ String.singleton fpLetter ++ vectorWidth
  let out :=
    if f.ulp ≥ 0 then out ++ "_u" ++ fmt02d f.ulp
    else if isaName ≠ "" then out ++ "_"
    else out
  out ++ isaName ++ "("

/-- The three guarded `printf`s of the argument types. -/
def declarationArgs (a : Option String × Option String × Option String) : String :=
  (match a.1 with | some t => t | none => "") ++
  (match a.2.1 with | some t => ", " ++ t | none => "") ++
  (match a.2.2 with | some t => ", " ++ t | none => "")

/-- Embedding of `outputFunctionDeclaration`: the text it writes to standard
output; `some ""` when it returns early, `none` when the return type is still
`NULL` at the first `printf`. -/
def outputFunctionDeclaration (f : funcSpec) ( atrPrefix : Option String) (fpLetter : Char)
    (vectorWidth fpType fpPairType intType intPairType isaName callConv : String) :
    Option String :=
  if fpLetter = 'f' ∧ (f.funcType = 3 ∨ f.funcType = 4) then some ""
  else
    match returnTypeOf f.funcType fpType fpPairType intType with
    | none => none
    | some returnType =>
      let out := declarationHead f atrPrefix fpLetter vectorWidth returnType isaName
      let out := out ++ declarationArgs (argumentTypesOf f.funcType fpType intType)
      let out := out ++ ")"
      let out := if f.funcType = 7 ∨ f.funcType = 8 then out else out ++ callConv
      some (out ++ ";\n")

/-! ## main -/

/-- What a run leaves behind: the text on standard output, the text on standard
error and the argument of `exit`. -/
structure Outcome where
  stdout : String
  stderr : String
  status : Int
deriving DecidableEq

/-- The diagnostic of the usage branch (six `fprintf`s to `stderr`). -/
def usageText (argv0 : String) : String :=
  "Generate a header for renaming functions\n" ++
  "Usage : " ++ argv0 ++ " <atr prefix> <DP width> <SP width> [<isa>]\n" ++
  "\n" ++
  "Generate a part of header for library functions\n" ++
  "Usage : " ++ argv0 ++ " <atr prefix> <DP width> <SP width> <vdouble type> <vfloat type> <vint type> <vint2 type> <Macro to enable> [<isa>]\n" ++
  "\n"

/-- First loop of rename mode (lines 168-186): the `x` and `y` definitions of
the double-precision names, outside the deterministic build. -/
def renameLoop1 (funcList : List funcSpec) ( atrPrefix wdp isaname isaub : String)
    (out : String) : String :=
  funcList.foldl (fun out f =>
    if f.ulp ≥ 0 then
      let out := out ++ ("#define x" ++ f.name ++ ulpSuffixStr f.ulpSuffix ++ " Sleef_" ++ "" ++
        f.name ++ "d" ++ wdp ++ "_u" ++ fmt02d f.ulp ++ isaname ++ "\n")
      out ++ ("#define y" ++ f.name ++ ulpSuffixStr f.ulpSuffix ++ " Sleef_" ++ atrPrefix ++
        f.name ++ "d" ++ wdp ++ "_u" ++ fmt02d f.ulp ++ isaname ++ "\n")
    else
      let out := out ++ ("#define x" ++ f.name ++ " Sleef_" ++ "" ++
        f.name ++ "d" ++ wdp ++ isaub ++ isaname ++ "\n")
      out ++ ("#define y" ++ f.name ++ " Sleef_" ++ atrPrefix ++
        f.name ++ "d" ++ wdp ++ isaub ++ isaname ++ "\n")) out

/-- Second loop of rename mode (lines 190-208): the same for the
single-precision names. -/
def renameLoop2 (funcList : List funcSpec) ( atrPrefix wsp isaname isaub : String)
    (out : String) : String :=
  funcList.foldl (fun out f =>
    if f.ulp ≥ 0 then
      let out := out ++ ("#define x" ++ f.name ++ "f" ++ ulpSuffixStr f.ulpSuffix ++ " Sleef_" ++ "" ++
        f.name ++ "f" ++ wsp ++ "_u" ++ fmt02d f.ulp ++ isaname ++ "\n")
      out ++ ("#define y" ++ f.name ++ "f" ++ ulpSuffixStr f.ulpSuffix ++ " Sleef_" ++ atrPrefix ++
        f.name ++ "f" ++ wsp ++ "_u" ++ fmt02d f.ulp ++ isaname ++ "\n")
    else
      let out := out ++ ("#define x" ++ f.name ++ "f" ++ " Sleef_" ++ "" ++
        f.name ++ "f" ++ wsp ++ isaub ++ isaname ++ "\n")
      out ++ ("#define y" ++ f.name ++ "f" ++ " Sleef_" ++ atrPrefix ++
        f.name ++ "f" ++ wsp ++ isaub ++ isaname ++ "\n")) out

/-- Third loop of rename mode (lines 214-225): the double-precision definitions
of the deterministic build. -/
def renameLoop3 (funcList : List funcSpec) ( atrPrefix wdp isaname isaub : String)
    (out : String) : String :=
  funcList.foldl (fun out f =>
    if f.ulp ≥ 0 then
      out ++ ("#define x" ++ f.name ++ ulpSuffixStr f.ulpSuffix ++ " Sleef_" ++ atrPrefix ++
        f.name ++ "d" ++ wdp ++ "_u" ++ fmt02d f.ulp ++ isaname ++ "\n")
    else
      out ++ ("#define x" ++ f.name ++ " Sleef_" ++ atrPrefix ++
        f.name ++ "d" ++ wdp ++ isaub ++ isaname ++ "\n")) out

/-- Fourth loop of rename mode (lines 229-240): the single-precision
definitions of the deterministic build. -/
def renameLoop4 (funcList : List funcSpec) ( atrPrefix wsp isaname isaub : String)
    (out : String) : String :=
  funcList.foldl (fun out f =>
    if f.ulp ≥ 0 then
      out ++ ("#define x" ++ f.name ++ "f" ++ ulpSuffixStr f.ulpSuffix ++ " Sleef_" ++ atrPrefix ++
        f.name ++ "f" ++ wsp ++ "_u" ++ fmt02d f.ulp ++ isaname ++ "\n")
    else
      out ++ ("#define x" ++ f.name ++ "f" ++ " Sleef_" ++ atrPrefix ++
        f.name ++ "f" ++ wsp ++ isaub ++ isaname ++ "\n")) out

/-- The body of the rename branch of `main` (lines 166-242), from the local
variables to the text on standard output. -/
def renameOutput (funcList : List funcSpec) ( atrPrefix wdp wsp isaname isaub : String) :
    String :=
  let out := "#ifndef DETERMINISTIC\n\n"
  let out := renameLoop1 funcList atrPrefix wdp isaname isaub out
  let out := out ++ "\n"
  let out := renameLoop2 funcList atrPrefix wsp isaname isaub out
  let out := out ++ "\n#else //#ifndef DETERMINISTIC\n\n"
  let out := renameLoop3 funcList atrPrefix wdp isaname isaub out
  let out := out ++ "\n"
  let out := renameLoop4 funcList atrPrefix wsp isaname isaub out
  out ++ "\n#endif // #ifndef DETERMINISTIC\n"

/-- A prototype loop of declaration mode (lines 281-292 and 307-318): for each
descriptor the unprefixed declaration, then the prefixed one. -/
def declarationLoop (funcList : List funcSpec) ( atrPrefix : String) (fpLetter : Char)
    (width fpType fpPairType intType intPairType isaname vectorcc : String)
    (out : String) : Option String :=
  funcList.foldlM (fun out f => do
    let d1 ← outputFunctionDeclaration f none fpLetter width fpType fpPairType
      intType intPairType isaname vectorcc
    let d2 ← outputFunctionDeclaration f (some atrPrefix) fpLetter width fpType fpPairType
      intType intPairType isaname vectorcc
    pure (out ++ d1 ++ d2)) out

/-- The guarded typedef of a pair type (lines 269-278 and 295-304);
`nativePair` is `svfloat64x2_t` or `svfloat32x2_t`. -/
def pairTypedef (architecture nativePair scalarName pairName : String) : String :=
  "#ifndef " ++ pairName ++ "_DEFINED\n" ++
  (if architecture = "__ARM_FEATURE_SVE" then
    "typedef " ++ nativePair ++ " " ++ pairName ++ ";\n"
  else
    "typedef struct \x7b\n" ++
    "  " ++ scalarName ++ " x, y;\n" ++
    "\x7d " ++ pairName ++ ";\n") ++
  "#define " ++ pairName ++ "_DEFINED\n" ++
  "#endif\n" ++
  "\n"

/-- The body of the declaration branch of `main` (lines 256-321), from the
local variables to the text on standard output.  `ENABLE_AAVPCS` tells whether
the preprocessor symbol of that name is defined. -/
def declarationOutput (funcList : List funcSpec) ( ENABLE_AAVPCS : Bool)
    ( atrPrefix wdp wsp vdoublename vfloatname vintname architecture isaname : String) :
    Option String :=
  let vdouble2Name := getPairTypeName vdoublename
  let vfloat2Name := getPairTypeName vfloatname
  let vint2Name := getPairTypeName vintname
  let wdp := if isaname = "sve" then "x" else wdp
  let wsp := if isaname = "sve" then "x" else wsp
  let vectorcc :=
    if ENABLE_AAVPCS ∧ isaname = "advsimd" then " __attribute__((aarch64_vector_pcs))" else ""
  let out := "#ifdef " ++ architecture ++ "\n"
  if vdoublename ≠ "-" then do
    let out := out ++ "\n"
    let out := out ++ pairTypedef architecture "svfloat64x2_t" vdoublename vdouble2Name
    let out ← declarationLoop funcList atrPrefix 'd' wdp vdoublename vdouble2Name
      vintname vint2Name isaname vectorcc out
    let out := out ++ "\n"
    let out := out ++ pairTypedef architecture "svfloat32x2_t" vfloatname vfloat2Name
    let out ← declarationLoop funcList atrPrefix 'f' wsp vfloatname vfloat2Name
      vintname vint2Name isaname vectorcc out
    pure (out ++ "#endif\n")
  else
    pure (out ++ "#endif\n")

/-- Embedding of `main`: `argc` is the length of `argv`, and `argv[i]` with
`i` at or beyond `argc` is no string (the slot `argv[argc]` holds `NULL`, the
slots after it do not exist), so a run that uses one has no outcome. -/
def main (funcList : List funcSpec) ( ENABLE_AAVPCS : Bool) (argv : List String) :
    Option Outcome :=
  let argc := argv.length
  if argc < 4 then do
    let argv0 ← argv[0]?
    pure { stdout := "", stderr := usageText argv0, status := -1 }
  else if argc = 4 ∨ argc = 5 then do
    let arg1 ← argv[1]?
    let atrPrefix := if arg1 = "-" then "" else arg1
    let wdp ← argv[2]?
    let wsp ← argv[3]?
    let isaname ← if argc = 4 then some "" else argv[4]?
    let isaub := if argc = 5 then "_" else ""
    pure { stdout := renameOutput funcList atrPrefix wdp wsp isaname isaub,
           stderr := "", status := 0 }
  else do
    let arg1 ← argv[1]?
    let atrPrefix := if arg1 = "-" then "" else arg1
    let wdp ← argv[2]?
    let wsp ← argv[3]?
    let vdoublename ← argv[4]?
    let vfloatname ← argv[5]?
    let vintname ← argv[6]?
    let _vint2name ← argv[7]?
    let architecture ← argv[8]?
    let isaname ← if argc = 10 then argv[9]? else some ""
    let out ← declarationOutput funcList ENABLE_AAVPCS atrPrefix wdp wsp
      vdoublename vfloatname vintname architecture isaname
    pure { stdout := out, stderr := "", status := 0 }

/-! ## The spec's wording of the generated texts -/

/-- The spec's name synthesis: `Sleef_`, prefix tag, base name, precision
letter, width label, then the accuracy code when `ulp` is not negative,
otherwise an underscore when the ISA label is not empty, then the ISA label. -/
def symbolName (pfx name : String) (c : Char) (w : String) (ulp : Int) (isa : String) :
    String :=
  "Sleef_" ++ pfx ++ name ++ String.singleton c ++ w ++
  (if ulp ≥ 0 then "_u" ++ zeroPad2 ulp.toNat else if isa = "" then "" else "_") ++ isa

/-- The spec's category table: return type and ordered parameter types of each
`funcType`. -/
def categoryShape (funcType : Int) (fp fpPair intType : String) :
    Option (String × List String) :=
  match funcType with
  | 0 => some (fp, [fp])
  | 1 => some (fp, [fp, fp])
  | 2 => some (fpPair, [fp])
  | 3 => some (fp, [fp, intType])
  | 4 => some (intType, [fp])
  | 5 => some (fp, [fp, fp, fp])
  | 6 => some (fpPair, [fp])
  | 7 => some ("int", ["int"])
  | 8 => some ("void*", ["int"])
  | _ => none

/-- A text without a newline character. -/
def NoNewline (s : String) : Prop := '\n' ∉ s.data

instance (s : String) : Decidable (NoNewline s) := by
  unfold NoNewline; infer_instance

/-- One alias definition of rename mode: `#define`, the family letter and the
short token, a blank, the target symbol, a newline. -/
def aliasLine (family : Char) (token target : String) : String :=
  "#define " ++ String.singleton family ++ token ++ " " ++ target ++ "\n"

/-- The short token of a descriptor after the family letter: the base name, the
precision mark (nothing for double, `f` for single) and, when `ulp` is not
negative, the suffix string looked up by `ulpSuffix`. -/
def shortToken (f : funcSpec) (mark : String) : String :=
  f.name ++ mark ++ (if f.ulp ≥ 0 then ulpSuffixStr f.ulpSuffix else "")

/-- The symbol a rename-mode definition aliases to: `Sleef_`, prefix, base
name, precision letter, width, then the accuracy code when `ulp` is not
negative and the text `isaub` otherwise, then the ISA label. -/
def aliasTarget (pfx : String) (f : funcSpec) (c : Char) (w isaub isa : String) : String :=
  "Sleef_" ++ pfx ++ f.name ++ String.singleton c ++ w ++
  (if f.ulp ≥ 0 then "_u" ++ zeroPad2 f.ulp.toNat else isaub) ++ isa

/-- The definitions one descriptor gets outside the deterministic build, for
one precision: the `x` token aliased to the unprefixed symbol, then the `y`
token aliased to the prefixed symbol. -/
def nonDetLines (f : funcSpec) (pfx mark : String) (c : Char) (w isaub isa : String) :
    List String :=
  [aliasLine 'x' (shortToken f mark) (aliasTarget "" f c w isaub isa),
   aliasLine 'y' (shortToken f mark) (aliasTarget pfx f c w isaub isa)]

/-- The definition one descriptor gets in the deterministic build, for one
precision: the `x` token aliased to the prefixed symbol. -/
def detLines (f : funcSpec) (pfx mark : String) (c : Char) (w isaub isa : String) :
    List String :=
  [aliasLine 'x' (shortToken f mark) (aliasTarget pfx f c w isaub isa)]

/-- How many of the lines begin with `#define` and the given family letter. -/
def definesOf (family : Char) (lines : List String) : Nat :=
  lines.countP fun l => decide (("#define " ++ String.singleton family).data <+: l.data)

/-- The spec's wording of one prototype line: `IMPORT CONST`, the return type
of the category table, the symbol name, the comma-joined parameter types in
parentheses, the calling-convention text except for categories 7 and 8, a
semicolon and a newline.  A category outside the table has no line. -/
def prototypeLine (f : funcSpec) (pfx : String) (c : Char)
    (w fp fpPair intType isa cc : String) : String :=
  match categoryShape f.funcType fp fpPair intType with
  | some shape =>
    "IMPORT CONST " ++ shape.1 ++ " " ++ symbolName pfx f.name c w f.ulp isa ++ "(" ++
      ", ".intercalate shape.2 ++ ")" ++
      (if f.funcType = 7 ∨ f.funcType = 8 then "" else cc) ++ ";\n"
  | none => ""

/-- The spec's wording of what one descriptor contributes to a prototype block
of declaration mode: nothing for single precision and category 3 or 4,
otherwise the unprefixed line followed by the prefixed line. -/
def prototypeText (f : funcSpec) (pfx : String) (c : Char)
    (w fp fpPair intType isa cc : String) : String :=
  if c = 'f' ∧ (f.funcType = 3 ∨ f.funcType = 4) then ""
  else prototypeLine f "" c w fp fpPair intType isa cc ++
    prototypeLine f pfx c w fp fpPair intType isa cc

/-! ## The branches of main -/

/-- The three ways `main` can go. -/
inductive Mode where
  | usage
  | rename
  | declaration
deriving DecidableEq

/-- The tests of `main` on `argc` (lines 143, 157 and 244): below 4 the usage
branch, 4 or 5 the rename branch, every other count the declaration branch. -/
def selectMode (argc : Nat) : Mode :=
  if argc < 4 then Mode.usage
  else if argc = 4 ∨ argc = 5 then Mode.rename
  else Mode.declaration

/-- The usage branch of `main` (lines 144-152). -/
def usageBranch (argv : List String) : Option Outcome := do
  let argv0 ← argv[0]?
  pure { stdout := "", stderr := usageText argv0, status := -1 }

/-- The rename branch of `main` (lines 158-242) followed by `exit(0)`. -/
def renameBranch (funcList : List funcSpec) (argv : List String) : Option Outcome := do
  let argc := argv.length
  let arg1 ← argv[1]?
  let atrPrefix := if arg1 = "-" then "" else arg1
  let wdp ← argv[2]?
  let wsp ← argv[3]?
  let isaname ← if argc = 4 then some "" else argv[4]?
  let isaub := if argc = 5 then "_" else ""
  pure { stdout := renameOutput funcList atrPrefix wdp wsp isaname isaub,
         stderr := "", status := 0 }

/-- The declaration branch of `main` (lines 245-325) followed by `exit(0)`: it
reads `argv[1]` to `argv[8]`, and `argv[9]` when `argc` is 10. -/
def declarationBranch (funcList : List funcSpec) ( ENABLE_AAVPCS : Bool)
    (argv : List String) : Option Outcome := do
  let argc := argv.length
  let arg1 ← argv[1]?
  let atrPrefix := if arg1 = "-" then "" else arg1
  let wdp ← argv[2]?
  let wsp ← argv[3]?
  let vdoublename ← argv[4]?
  let vfloatname ← argv[5]?
  let vintname ← argv[6]?
  let _vint2name ← argv[7]?
  let architecture ← argv[8]?
  let isaname ← if argc = 10 then argv[9]? else some ""
  let out ← declarationOutput funcList ENABLE_AAVPCS atrPrefix wdp wsp
    vdoublename vfloatname vintname architecture isaname
  pure { stdout := out, stderr := "", status := 0 }

/-! ## Lines of text -/

/-- The text made of the given lines, each followed by a newline. -/
def unlines (lines : List String) : String :=
  String.join (lines.map fun l => l ++ "\n")

/-- The lines of a guarded pair-type typedef: the `#ifndef` line, the typedef
(one line for the native scalable pair type, three lines for the two-field
structure), the `#define` line and the `#endif` line. -/
def guardedTypedefLines (architecture nativePair scalarName pairName : String) : List String :=
  ["#ifndef " ++ pairName ++ "_DEFINED"] ++
  (if architecture = "__ARM_FEATURE_SVE" then
    ["typedef " ++ nativePair ++ " " ++ pairName ++ ";"]
  else
    ["typedef struct \x7b", "  " ++ scalarName ++ " x, y;", "\x7d " ++ pairName ++ ";"]) ++
  ["#define " ++ pairName ++ "_DEFINED", "#endif"]

/-- The prototype lines of one descriptor without their newlines: none for
single precision and category 3 or 4 (and for a category outside the table),
otherwise the unprefixed line and the prefixed line. -/
def prototypeLines (f : funcSpec) (pfx : String) (c : Char)
    (w fp fpPair intType isa cc : String) : List String :=
  if c = 'f' ∧ (f.funcType = 3 ∨ f.funcType = 4) then []
  else
    match categoryShape f.funcType fp fpPair intType with
    | some shape =>
      ["IMPORT CONST " ++ shape.1 ++ " " ++ symbolName "" f.name c w f.ulp isa ++ "(" ++
         ", ".intercalate shape.2 ++ ")" ++
         (if f.funcType = 7 ∨ f.funcType = 8 then "" else cc) ++ ";",
       "IMPORT CONST " ++ shape.1 ++ " " ++ symbolName pfx f.name c w f.ulp isa ++ "(" ++
         ", ".intercalate shape.2 ++ ")" ++
         (if f.funcType = 7 ∨ f.funcType = 8 then "" else cc) ++ ";"]
    | none => []

/-- How many of the lines begin with `#ifdef`. -/
def ifdefLines (lines : List String) : Nat :=
  lines.countP fun l => decide ("#ifdef".data <+: l.data)

/-! ## Proofs -/

theorem getPairTypeName.loop_eq (s p : List Char) :
    getPairTypeName.loop s p = p ++ s.map (fun c => if c = ' ' then '_' else c) := by
  induction s generalizing p with
  | nil => simp [getPairTypeName.loop]
  | cons c rest ih =>
    by_cases hc : c = ' ' <;> simp [getPairTypeName.loop, ih, hc]

theorem getPairTypeName_eq (s : String) :
    getPairTypeName s = "Sleef_" ++ replaceSpaces s ++ "_2" := by
  apply String.ext
  simp [getPairTypeName, replaceSpaces, getPairTypeName.loop_eq, String.data_append]

theorem replaceSpaces_no_space (s : String) : ' ' ∉ (replaceSpaces s).data := by
  simp only [replaceSpaces, List.mem_map, not_exists, not_and]
  intro c _
  by_cases hc : c = ' '
  · simp [hc]
  · simp [hc]

/-- C1: `getPairTypeName s` is `"Sleef_"`, then `s` with every space replaced by
an underscore and every other character kept at its index, then `"_2"`; the
result has no space, and the two examples of the spec evaluate as stated. -/
theorem C1_getPairTypeName (s : String) :
    getPairTypeName s = "Sleef_" ++ replaceSpaces s ++ "_2"
    ∧ (replaceSpaces s).length = s.length
    ∧ (∀ i : Nat, (replaceSpaces s).data[i]? =
        (s.data[i]?).map (fun c => if c = ' ' then '_' else c))
    ∧ ' ' ∉ (getPairTypeName s).data
    ∧ getPairTypeName "double" = "Sleef_double_2"
    ∧ getPairTypeName "vector float" = "Sleef_vector_float_2" := by
  refine ⟨getPairTypeName_eq s, ?_, ?_, ?_, by decide, by decide⟩
  · show (s.data.map _).length = s.data.length
    exact List.length_map _ _
  · intro i
    simp [replaceSpaces]
  · rw [getPairTypeName_eq]
    have h := replaceSpaces_no_space s
    simp only [String.data_append, List.mem_append, not_or]
    exact ⟨⟨by decide, h⟩, by decide⟩


/-! ### Decimal digits -/

theorem toDigitsCore_length_ge (fuel n : Nat) (ds : List Char) :
    ds.length ≤ (Nat.toDigitsCore 10 fuel n ds).length := by
  induction fuel generalizing n ds with
  | zero => simp [Nat.toDigitsCore]
  | succ k ih =>
    simp only [Nat.toDigitsCore]
    split
    · simp
    · exact Nat.le_trans (by simp) (ih _ _)

theorem toDigitsCore_length_gt (fuel n : Nat) (ds : List Char) :
    ds.length + 1 ≤ (Nat.toDigitsCore 10 (fuel + 1) n ds).length := by
  simp only [Nat.toDigitsCore]
  split
  · simp
  · exact Nat.le_trans (by simp) (toDigitsCore_length_ge _ _ _)

theorem toDigits_length_lt_ten (n : Nat) (h : n < 10) : (Nat.toDigits 10 n).length = 1 := by
  have h0 : n / 10 = 0 := Nat.div_eq_of_lt h
  simp [Nat.toDigits, Nat.toDigitsCore, h0]

theorem toDigits_length_ge_ten (n : Nat) (h : 10 ≤ n) : 2 ≤ (Nat.toDigits 10 n).length := by
  have h0 : n / 10 ≠ 0 := by omega
  obtain ⟨m, rfl⟩ : ∃ m, n = m + 1 := ⟨n - 1, by omega⟩
  show 2 ≤ (Nat.toDigitsCore 10 (m + 1 + 1) (m + 1) []).length
  rw [Nat.toDigitsCore]
  simp only [h0, if_false]
  exact toDigitsCore_length_gt m _ [_]

theorem toDigits_length_ge_hundred (n : Nat) (h : 100 ≤ n) :
    3 ≤ (Nat.toDigits 10 n).length := by
  have h0 : n / 10 ≠ 0 := by omega
  have h1 : n / 10 / 10 ≠ 0 := by omega
  obtain ⟨m, rfl⟩ : ∃ m, n = m + 2 := ⟨n - 2, by omega⟩
  show 3 ≤ (Nat.toDigitsCore 10 (m + 1 + 1 + 1) (m + 2) []).length
  rw [Nat.toDigitsCore]
  simp only [h0, if_false]
  rw [Nat.toDigitsCore]
  simp only [h1, if_false]
  exact toDigitsCore_length_gt m _ [_, _]

theorem fmt02d_eq_zeroPad2 (n : Int) (h : 0 ≤ n) : fmt02d n = zeroPad2 n.toNat := by
  have hn : ¬ n < 0 := by omega
  simp only [fmt02d, hn, if_false, zeroPad2]
  by_cases h10 : n.toNat < 10
  · have hl := toDigits_length_lt_ten _ h10
    simp only [h10, if_true]
    apply String.ext
    simp [List.leftpad, hl, String.data_append, toString, Nat.repr, List.asString]
  · have hl := toDigits_length_ge_ten n.toNat (by omega)
    simp only [h10, if_false]
    apply String.ext
    have : 2 - (Nat.toDigits 10 n.toNat).length = 0 := by omega
    simp [List.leftpad, this, toString, Nat.repr, List.asString]


/-! ### The declaration line -/

theorem categoryShape_range {k : Int} {fp fpPair it : String} {shape : String × List String}
    (h : categoryShape k fp fpPair it = some shape) : 0 ≤ k ∧ k ≤ 8 := by
  unfold categoryShape at h
  split at h <;> first | omega | simp at h

theorem categoryShape_isSome (k : Int) (fp fpPair it : String) (h0 : 0 ≤ k) (h8 : k ≤ 8) :
    ∃ shape, categoryShape k fp fpPair it = some shape := by
  have hk : k = 0 ∨ k = 1 ∨ k = 2 ∨ k = 3 ∨ k = 4 ∨ k = 5 ∨ k = 6 ∨ k = 7 ∨ k = 8 := by omega
  rcases hk with h | h | h | h | h | h | h | h | h <;> subst h <;> exact ⟨_, rfl⟩

theorem outputFunctionDeclaration_eq (f : funcSpec) ( atrPrefix : Option String) (c : Char)
    (w fp fpPair it ipt isa cc : String) (shape : String × List String)
    (hshape : categoryShape f.funcType fp fpPair it = some shape)
    (hskip : ¬ (c = 'f' ∧ (f.funcType = 3 ∨ f.funcType = 4))) :
    outputFunctionDeclaration f atrPrefix c w fp fpPair it ipt isa cc =
      some ("IMPORT CONST " ++ shape.1 ++ " " ++
        symbolName (atrPrefix.getD "") f.name c w f.ulp isa ++ "(" ++
        ", ".intercalate shape.2 ++ ")" ++
        (if f.funcType = 7 ∨ f.funcType = 8 then "" else cc) ++ ";\n") := by
  obtain ⟨name, ulp, sfx, ft⟩ := f
  simp only at hshape hskip ⊢
  have hpfx : (match atrPrefix with | some p => p | none => "") = atrPrefix.getD "" := by
    cases atrPrefix <;> rfl
  unfold outputFunctionDeclaration
  rw [if_neg hskip]
  clear hskip
  unfold categoryShape at hshape
  split at hshape <;> first
    | (simp only [Option.some.injEq] at hshape
       subst hshape
       simp only [returnTypeOf, argumentTypesOf,
         declarationHead, declarationArgs, symbolName, hpfx, String.intercalate,
         String.intercalate.go]
       by_cases hu : ulp ≥ 0
       · simp only [hu, if_true, fmt02d_eq_zeroPad2 ulp hu]
         apply congrArg some
         apply String.ext
         simp [String.data_append]
       · by_cases hi : isa = ""
         · simp only [hu, hi, if_false, if_true, ne_eq, not_true_eq_false]
           apply congrArg some
           apply String.ext
           simp [String.data_append]
         · simp only [hu, hi, if_false, if_true, ne_eq, not_false_eq_true]
           apply congrArg some
           apply String.ext
           simp [String.data_append])
    | simp at hshape


theorem outputFunctionDeclaration_ne_empty (f : funcSpec) ( atrPrefix : Option String)
    (c : Char) (w fp fpPair it ipt isa cc : String)
    (hskip : ¬ (c = 'f' ∧ (f.funcType = 3 ∨ f.funcType = 4))) :
    outputFunctionDeclaration f atrPrefix c w fp fpPair it ipt isa cc ≠ some "" := by
  unfold outputFunctionDeclaration
  rw [if_neg hskip]
  cases returnTypeOf f.funcType fp fpPair it with
  | none => simp
  | some rt =>
    simp only [ne_eq, Option.some.injEq]
    intro h
    have hd := congrArg String.data h
    simp [String.data_append] at hd

/-! ### Newlines -/

theorem noNewline_append (a b : String) : NoNewline (a ++ b) ↔ NoNewline a ∧ NoNewline b := by
  simp [NoNewline, String.data_append, not_or]

theorem noNewline_singleton (c : Char) : NoNewline (String.singleton c) ↔ c ≠ '\n' := by
  simp [NoNewline, String.singleton, eq_comm]

theorem digitChar_ne_newline (k : Nat) (h : k < 10) : Nat.digitChar k ≠ '\n' := by
  interval_cases k <;> decide

theorem toDigitsCore_noNewline (fuel n : Nat) (ds : List Char) (h : '\n' ∉ ds) :
    '\n' ∉ Nat.toDigitsCore 10 fuel n ds := by
  induction fuel generalizing n ds with
  | zero => simpa [Nat.toDigitsCore] using h
  | succ k ih =>
    have hd : '\n' ∉ Nat.digitChar (n % 10) :: ds := by
      simp only [List.mem_cons, not_or]
      exact ⟨fun e => digitChar_ne_newline _ (Nat.mod_lt _ (by decide)) e.symm, h⟩
    simp only [Nat.toDigitsCore]
    split
    · exact hd
    · exact ih _ _ hd

theorem zeroPad2_noNewline (n : Nat) : NoNewline (zeroPad2 n) := by
  have hr : NoNewline (toString n) := by
    show '\n' ∉ (Nat.toDigits 10 n)
    exact toDigitsCore_noNewline _ _ _ (by simp)
  unfold zeroPad2
  split
  · rw [noNewline_append]
    exact ⟨by decide, hr⟩
  · exact hr

theorem symbolName_noNewline (pfx name : String) (c : Char) (w : String) (ulp : Int)
    (isa : String) (hp : NoNewline pfx) (hn : NoNewline name) (hc : c ≠ '\n')
    (hw : NoNewline w) (hi : NoNewline isa) : NoNewline (symbolName pfx name c w ulp isa) := by
  have h1 : NoNewline "Sleef_" := by decide
  have h2 : NoNewline "_u" := by decide
  have h3 : NoNewline "_" := by decide
  have h4 : NoNewline "" := by decide
  unfold symbolName
  split_ifs <;>
    simp [noNewline_append, noNewline_singleton, zeroPad2_noNewline, hp, hn, hc, hw, hi,
      h1, h2, h3, h4]

theorem returnTypeOf_of_shape {k : Int} {fp fpPair it : String} {shape : String × List String}
    (hshape : categoryShape k fp fpPair it = some shape) :
    returnTypeOf k fp fpPair it = some shape.1 := by
  unfold categoryShape at hshape
  split at hshape <;> first
    | (simp only [Option.some.injEq] at hshape
       subst hshape
       rfl)
    | simp at hshape

/-- C2: for a descriptor of category 0..8 that is not skipped, the text that
`outputFunctionDeclaration` prints after `IMPORT CONST`, the return type and a
blank, up to the opening parenthesis, is the symbol name of the spec
(`symbolName`: `Sleef_`, prefix, base name, letter, width, then `_u` and the
two-digit zero-padded `ulp` when `ulp` is not negative, else `_` when the ISA
label is not empty, then the ISA label); a `NULL` prefix prints like the empty
prefix. -/
theorem C2_symbol_name (f : funcSpec) ( atrPrefix : Option String) (c : Char)
    (w fp fpPair it ipt isa cc : String)
    (h0 : 0 ≤ f.funcType) (h8 : f.funcType ≤ 8)
    (hskip : ¬ (c = 'f' ∧ (f.funcType = 3 ∨ f.funcType = 4))) :
    (∃ rt tail, returnTypeOf f.funcType fp fpPair it = some rt ∧
      outputFunctionDeclaration f atrPrefix c w fp fpPair it ipt isa cc =
        some ("IMPORT CONST " ++ rt ++ " " ++
          symbolName (atrPrefix.getD "") f.name c w f.ulp isa ++ "(" ++ tail))
    ∧ outputFunctionDeclaration f none c w fp fpPair it ipt isa cc =
        outputFunctionDeclaration f (some "") c w fp fpPair it ipt isa cc := by
  obtain ⟨shape, hshape⟩ := categoryShape_isSome f.funcType fp fpPair it h0 h8
  have hrt := returnTypeOf_of_shape hshape
  refine ⟨⟨shape.1, ", ".intercalate shape.2 ++ ")" ++
      (if f.funcType = 7 ∨ f.funcType = 8 then "" else cc) ++ ";\n", hrt, ?_⟩, ?_⟩
  · rw [outputFunctionDeclaration_eq f atrPrefix c w fp fpPair it ipt isa cc shape hshape hskip]
    simp only [String.append_assoc]
  · rw [outputFunctionDeclaration_eq f none c w fp fpPair it ipt isa cc shape hshape hskip,
      outputFunctionDeclaration_eq f (some "") c w fp fpPair it ipt isa cc shape hshape hskip]
    rfl

/-- Instance of C2: the descriptor `pow` of category 1 and accuracy 10, prefix
`cinz_`, double precision, width 2, ISA label `avx`. -/
theorem C2_symbol_name_witness :
    (∃ rt tail, returnTypeOf 1 "double" "Sleef_double_2" "int" = some rt ∧
      outputFunctionDeclaration ⟨"pow", 10, 1, 1⟩ (some "cinz_") 'd' "2" "double"
          "Sleef_double_2" "int" "Sleef_int_2" "avx" "" =
        some ("IMPORT CONST " ++ rt ++ " " ++
          symbolName "cinz_" "pow" 'd' "2" 10 "avx" ++ "(" ++ tail))
    ∧ outputFunctionDeclaration ⟨"pow", 10, 1, 1⟩ none 'd' "2" "double"
          "Sleef_double_2" "int" "Sleef_int_2" "avx" "" =
        outputFunctionDeclaration ⟨"pow", 10, 1, 1⟩ (some "") 'd' "2" "double"
          "Sleef_double_2" "int" "Sleef_int_2" "avx" "" :=
  C2_symbol_name ⟨"pow", 10, 1, 1⟩ (some "cinz_") 'd' "2" "double" "Sleef_double_2" "int"
    "Sleef_int_2" "avx" "" (by decide) (by decide) (by decide)

/-- C3: for every category 0..8 the double-precision declaration line is
`IMPORT CONST`, the return type of the category table, the symbol name, and in
parentheses the parameter types of the category table joined by `", "`
(`categoryShape`: 0 fp(fp), 1 fp(fp, fp), 2 fpPair(fp), 3 fp(fp, intType),
4 intType(fp), 5 fp(fp, fp, fp), 6 fpPair(fp), 7 int(int), 8 void*(int)); for
categories 7 and 8 the line does not depend on the type names passed in. -/
theorem C3_category_shape (f : funcSpec) ( atrPrefix : Option String)
    (w fp fpPair it ipt isa cc : String)
    (h0 : 0 ≤ f.funcType) (h8 : f.funcType ≤ 8) :
    (∃ shape, categoryShape f.funcType fp fpPair it = some shape ∧
      outputFunctionDeclaration f atrPrefix 'd' w fp fpPair it ipt isa cc =
        some ("IMPORT CONST " ++ shape.1 ++ " " ++
          symbolName (atrPrefix.getD "") f.name 'd' w f.ulp isa ++ "(" ++
          ", ".intercalate shape.2 ++ ")" ++
          (if f.funcType = 7 ∨ f.funcType = 8 then "" else cc) ++ ";\n"))
    ∧ (∀ fp2 fpPair2 it2 ipt2 : String, f.funcType = 7 ∨ f.funcType = 8 →
        outputFunctionDeclaration f atrPrefix 'd' w fp2 fpPair2 it2 ipt2 isa cc =
          outputFunctionDeclaration f atrPrefix 'd' w fp fpPair it ipt isa cc) := by
  have hskip : ¬ ('d' = 'f' ∧ (f.funcType = 3 ∨ f.funcType = 4)) :=
    fun h => absurd h.1 (by decide)
  obtain ⟨shape, hshape⟩ := categoryShape_isSome f.funcType fp fpPair it h0 h8
  refine ⟨⟨shape, hshape, ?_⟩, ?_⟩
  · exact outputFunctionDeclaration_eq f atrPrefix 'd' w fp fpPair it ipt isa cc shape hshape
      hskip
  · intro fp2 fpPair2 it2 ipt2 h
    obtain ⟨shape2, hshape2⟩ := categoryShape_isSome f.funcType fp2 fpPair2 it2 h0 h8
    rw [outputFunctionDeclaration_eq f atrPrefix 'd' w fp fpPair it ipt isa cc shape hshape
        hskip,
      outputFunctionDeclaration_eq f atrPrefix 'd' w fp2 fpPair2 it2 ipt2 isa cc shape2 hshape2
        hskip]
    have hs : shape2 = shape := by
      rcases h with h | h <;> rw [h] at hshape hshape2 <;>
        exact Option.some.inj (hshape2.symm.trans hshape)
    rw [hs]

/-- Instance of C3: the descriptor `getInt` of category 7, printed once with the
type names `vd`, `vd2`, `vi` and once with `a`, `b`, `c`. -/
theorem C3_category_shape_witness :
    (∃ shape, categoryShape 7 "vd" "vd2" "vi" = some shape ∧
      outputFunctionDeclaration ⟨"getInt", -1, 0, 7⟩ none 'd' "4" "vd" "vd2" "vi" "vi2"
          "avx2" " CC" =
        some ("IMPORT CONST " ++ shape.1 ++ " " ++
          symbolName "" "getInt" 'd' "4" (-1) "avx2" ++ "(" ++
          ", ".intercalate shape.2 ++ ")" ++
          (if (7 : Int) = 7 ∨ (7 : Int) = 8 then "" else " CC") ++ ";\n"))
    ∧ outputFunctionDeclaration ⟨"getInt", -1, 0, 7⟩ none 'd' "4" "a" "b" "c" "d" "avx2" " CC" =
        outputFunctionDeclaration ⟨"getInt", -1, 0, 7⟩ none 'd' "4" "vd" "vd2" "vi" "vi2"
          "avx2" " CC" :=
  ⟨(C3_category_shape ⟨"getInt", -1, 0, 7⟩ none "4" "vd" "vd2" "vi" "vi2" "avx2" " CC"
      (by decide) (by decide)).1,
   (C3_category_shape ⟨"getInt", -1, 0, 7⟩ none "4" "vd" "vd2" "vi" "vi2" "avx2" " CC"
      (by decide) (by decide)).2 "a" "b" "c" "d" (Or.inl rfl)⟩

theorem intercalate_noNewline (l : List String) (h : ∀ s ∈ l, NoNewline s) :
    NoNewline (", ".intercalate l) := by
  have hsep : NoNewline ", " := by decide
  have hgo : ∀ (l : List String) (acc : String), NoNewline acc → (∀ s ∈ l, NoNewline s) →
      NoNewline (String.intercalate.go acc ", " l) := by
    intro l
    induction l with
    | nil => intro acc ha _; simpa [String.intercalate.go] using ha
    | cons a t ih =>
      intro acc ha hl
      simp only [String.intercalate.go]
      apply ih
      · rw [noNewline_append, noNewline_append]
        exact ⟨⟨ha, hsep⟩, hl a (by simp)⟩
      · intro s hs
        exact hl s (by simp [hs])
  cases l with
  | nil => simp only [String.intercalate]; decide
  | cons a t =>
    simp only [String.intercalate]
    exact hgo t a (h a (by simp)) (fun s hs => h s (by simp [hs]))

theorem categoryShape_noNewline {k : Int} {fp fpPair it : String} {shape : String × List String}
    (hshape : categoryShape k fp fpPair it = some shape)
    (hfp : NoNewline fp) (hpair : NoNewline fpPair) (hit : NoNewline it) :
    NoNewline shape.1 ∧ ∀ s ∈ shape.2, NoNewline s := by
  have h1 : NoNewline "int" := by decide
  have h2 : NoNewline "void*" := by decide
  unfold categoryShape at hshape
  split at hshape <;> first
    | (simp only [Option.some.injEq] at hshape
       subst hshape
       simp [hfp, hpair, hit, h1, h2])
    | simp at hshape

/-- C4: `outputFunctionDeclaration` prints nothing exactly when the precision
letter is `f` and the category is 3 or 4; in every other case with a category
in 0..8 it prints one line: `IMPORT CONST `, a body, then `;` and the newline,
and the body has no newline of its own when the strings passed in have none. -/
theorem C4_skip_or_one_line (f : funcSpec) ( atrPrefix : Option String) (c : Char)
    (w fp fpPair it ipt isa cc : String) :
    (outputFunctionDeclaration f atrPrefix c w fp fpPair it ipt isa cc = some "" ↔
      (c = 'f' ∧ (f.funcType = 3 ∨ f.funcType = 4)))
    ∧ (0 ≤ f.funcType → f.funcType ≤ 8 → ¬ (c = 'f' ∧ (f.funcType = 3 ∨ f.funcType = 4)) →
        ∃ body, outputFunctionDeclaration f atrPrefix c w fp fpPair it ipt isa cc =
            some ("IMPORT CONST " ++ body ++ ";\n")
          ∧ (NoNewline (atrPrefix.getD "") → NoNewline f.name → c ≠ '\n' → NoNewline w →
              NoNewline fp → NoNewline fpPair → NoNewline it → NoNewline isa →
              NoNewline cc → NoNewline body)) := by
  refine ⟨⟨fun h => ?_, fun h => ?_⟩, fun h0 h8 hskip => ?_⟩
  · by_contra hskip
    exact outputFunctionDeclaration_ne_empty f atrPrefix c w fp fpPair it ipt isa cc hskip h
  · simp [outputFunctionDeclaration, h]
  · obtain ⟨shape, hshape⟩ := categoryShape_isSome f.funcType fp fpPair it h0 h8
    refine ⟨shape.1 ++ " " ++ symbolName (atrPrefix.getD "") f.name c w f.ulp isa ++ "(" ++
        ", ".intercalate shape.2 ++ ")" ++
        (if f.funcType = 7 ∨ f.funcType = 8 then "" else cc), ?_, ?_⟩
    · rw [outputFunctionDeclaration_eq f atrPrefix c w fp fpPair it ipt isa cc shape hshape
        hskip]
      simp only [String.append_assoc]
    · intro hp hn hc hw hfp hpair hit hisa hcc
      obtain ⟨hs1, hs2⟩ := categoryShape_noNewline hshape hfp hpair hit
      have hsym := symbolName_noNewline (atrPrefix.getD "") f.name c w f.ulp isa hp hn hc hw hisa
      have hargs := intercalate_noNewline shape.2 hs2
      have e1 : NoNewline " " := by decide
      have e2 : NoNewline "(" := by decide
      have e3 : NoNewline ")" := by decide
      have e4 : NoNewline "" := by decide
      have hcc2 : NoNewline (if f.funcType = 7 ∨ f.funcType = 8 then "" else cc) := by
        split
        · exact e4
        · exact hcc
      simp only [noNewline_append]
      exact ⟨⟨⟨⟨⟨⟨hs1, e1⟩, hsym⟩, e2⟩, hargs⟩, e3⟩, hcc2⟩

/-- Instance of C4: the descriptor `ldexp` of category 3 in double precision,
with newline-free arguments. -/
theorem C4_skip_or_one_line_witness :
    (outputFunctionDeclaration ⟨"ldexp", -1, 0, 3⟩ (some "p_") 'd' "2" "vd" "vd2" "vi" "vi2"
        "sse2" "" = some "" ↔ (('d' : Char) = 'f' ∧ ((3 : Int) = 3 ∨ (3 : Int) = 4)))
    ∧ ∃ body, outputFunctionDeclaration ⟨"ldexp", -1, 0, 3⟩ (some "p_") 'd' "2" "vd" "vd2"
          "vi" "vi2" "sse2" "" = some ("IMPORT CONST " ++ body ++ ";\n")
        ∧ NoNewline body :=
  ⟨(C4_skip_or_one_line ⟨"ldexp", -1, 0, 3⟩ (some "p_") 'd' "2" "vd" "vd2" "vi" "vi2"
      "sse2" "").1,
   ((C4_skip_or_one_line ⟨"ldexp", -1, 0, 3⟩ (some "p_") 'd' "2" "vd" "vd2" "vi" "vi2"
      "sse2" "").2 (by decide) (by decide) (by decide)).imp
     (fun _ h => ⟨h.1, h.2 (by decide) (by decide) (by decide) (by decide) (by decide)
       (by decide) (by decide) (by decide) (by decide)⟩)⟩

/-! ### Loops that append -/

theorem join_cons (a : String) (l : List String) : String.join (a :: l) = a ++ String.join l := by
  apply String.ext
  simp [String.data_append]

theorem join_append (l₁ l₂ : List String) :
    String.join (l₁ ++ l₂) = String.join l₁ ++ String.join l₂ := by
  apply String.ext
  simp [String.data_append]

theorem foldl_append_eq_join {α : Type} (g : α → String) (l : List α) (out : String) :
    l.foldl (fun o a => o ++ g a) out = out ++ String.join (l.map g) := by
  induction l generalizing out with
  | nil => apply String.ext; simp [String.data_append]
  | cons a t ih =>
    simp only [List.foldl_cons, List.map_cons, join_cons, ih, String.append_assoc]

theorem renameLoop1_eq (fl : List funcSpec) (p wdp isa isaub out : String) :
    renameLoop1 fl p wdp isa isaub out = out ++ String.join (fl.map fun f =>
      aliasLine 'x' (shortToken f "") (aliasTarget "" f 'd' wdp isaub isa) ++
      aliasLine 'y' (shortToken f "") (aliasTarget p f 'd' wdp isaub isa)) := by
  rw [← foldl_append_eq_join]
  unfold renameLoop1
  congr 1
  funext o f
  by_cases hu : f.ulp ≥ 0
  · simp only [hu, if_true, aliasLine, shortToken, aliasTarget, fmt02d_eq_zeroPad2 f.ulp hu]
    apply String.ext
    simp [String.data_append, String.singleton]
  · simp only [hu, if_false, aliasLine, shortToken, aliasTarget]
    apply String.ext
    simp [String.data_append, String.singleton]

theorem renameLoop2_eq (fl : List funcSpec) (p wsp isa isaub out : String) :
    renameLoop2 fl p wsp isa isaub out = out ++ String.join (fl.map fun f =>
      aliasLine 'x' (shortToken f "f") (aliasTarget "" f 'f' wsp isaub isa) ++
      aliasLine 'y' (shortToken f "f") (aliasTarget p f 'f' wsp isaub isa)) := by
  rw [← foldl_append_eq_join]
  unfold renameLoop2
  congr 1
  funext o f
  by_cases hu : f.ulp ≥ 0
  · simp only [hu, if_true, aliasLine, shortToken, aliasTarget, fmt02d_eq_zeroPad2 f.ulp hu]
    apply String.ext
    simp [String.data_append, String.singleton]
  · simp only [hu, if_false, aliasLine, shortToken, aliasTarget]
    apply String.ext
    simp [String.data_append, String.singleton]

theorem renameLoop3_eq (fl : List funcSpec) (p wdp isa isaub out : String) :
    renameLoop3 fl p wdp isa isaub out = out ++ String.join (fl.map fun f =>
      aliasLine 'x' (shortToken f "") (aliasTarget p f 'd' wdp isaub isa)) := by
  rw [← foldl_append_eq_join]
  unfold renameLoop3
  congr 1
  funext o f
  by_cases hu : f.ulp ≥ 0
  · simp only [hu, if_true, aliasLine, shortToken, aliasTarget, fmt02d_eq_zeroPad2 f.ulp hu]
    apply String.ext
    simp [String.data_append, String.singleton]
  · simp only [hu, if_false, aliasLine, shortToken, aliasTarget]
    apply String.ext
    simp [String.data_append, String.singleton]

theorem renameLoop4_eq (fl : List funcSpec) (p wsp isa isaub out : String) :
    renameLoop4 fl p wsp isa isaub out = out ++ String.join (fl.map fun f =>
      aliasLine 'x' (shortToken f "f") (aliasTarget p f 'f' wsp isaub isa)) := by
  rw [← foldl_append_eq_join]
  unfold renameLoop4
  congr 1
  funext o f
  by_cases hu : f.ulp ≥ 0
  · simp only [hu, if_true, aliasLine, shortToken, aliasTarget, fmt02d_eq_zeroPad2 f.ulp hu]
    apply String.ext
    simp [String.data_append, String.singleton]
  · simp only [hu, if_false, aliasLine, shortToken, aliasTarget]
    apply String.ext
    simp [String.data_append, String.singleton]

theorem main_rename (fl : List funcSpec) (b : Bool) (prog a1 wdp wsp : String)
    (isaArg : Option String) :
    main fl b (prog :: a1 :: wdp :: wsp :: isaArg.toList) =
      some { stdout := renameOutput fl (if a1 = "-" then "" else a1) wdp wsp
               (isaArg.getD "") (if isaArg.isSome then "_" else ""),
             stderr := "", status := 0 } := by
  cases isaArg <;> simp [main]

theorem renameOutput_eq (fl : List funcSpec) (p wdp wsp isa isaub : String) :
    renameOutput fl p wdp wsp isa isaub =
      "#ifndef DETERMINISTIC\n\n" ++
      String.join (fl.flatMap fun f => nonDetLines f p "" 'd' wdp isaub isa) ++ "\n" ++
      String.join (fl.flatMap fun f => nonDetLines f p "f" 'f' wsp isaub isa) ++
      "\n#else //#ifndef DETERMINISTIC\n\n" ++
      String.join (fl.flatMap fun f => detLines f p "" 'd' wdp isaub isa) ++ "\n" ++
      String.join (fl.flatMap fun f => detLines f p "f" 'f' wsp isaub isa) ++
      "\n#endif // #ifndef DETERMINISTIC\n" := by
  have hj : ∀ (g : funcSpec → List String),
      String.join (fl.flatMap g) = String.join (fl.map fun f => String.join (g f)) := by
    intro g
    induction fl with
    | nil => rfl
    | cons a t ih => simp only [List.flatMap_cons, join_append, ih, List.map_cons, join_cons]
  have h2 : ∀ a b : String, String.join [a, b] = a ++ b := by
    intro a b; apply String.ext; simp [String.data_append]
  have h1 : ∀ a : String, String.join [a] = a := by
    intro a; apply String.ext; simp
  simp only [renameOutput, renameLoop1_eq, renameLoop2_eq, renameLoop3_eq, renameLoop4_eq,
    hj, nonDetLines, detLines, h2, h1]

theorem prefix_aliasLine (a b : Char) (t g : String) :
    ("#define " ++ String.singleton a).data <+: (aliasLine b t g).data ↔ a = b := by
  have e : (aliasLine b t g).data =
      "#define ".data ++ (b :: (t.data ++ " ".data ++ g.data ++ "\n".data)) := by
    simp [aliasLine, String.data_append, String.singleton]
  have e2 : ("#define " ++ String.singleton a).data = "#define ".data ++ [a] := by
    simp [String.data_append, String.singleton]
  rw [e, e2, List.prefix_append_right_inj, List.cons_prefix_cons]
  simp

theorem definesOf_nonDetLines (fam : Char) (f : funcSpec) (p mark : String) (c : Char)
    (w isaub isa : String) :
    definesOf fam (nonDetLines f p mark c w isaub isa) =
      if fam = 'x' ∨ fam = 'y' then 1 else 0 := by
  simp only [definesOf, nonDetLines, List.countP_cons, List.countP_nil, prefix_aliasLine]
  by_cases hx : fam = 'x'
  · subst hx; simp
  · by_cases hy : fam = 'y'
    · subst hy; simp
    · simp [hx, hy]

theorem definesOf_detLines (fam : Char) (f : funcSpec) (p mark : String) (c : Char)
    (w isaub isa : String) :
    definesOf fam (detLines f p mark c w isaub isa) = if fam = 'x' then 1 else 0 := by
  simp only [definesOf, detLines, List.countP_cons, List.countP_nil, prefix_aliasLine]
  by_cases hx : fam = 'x'
  · subst hx; simp
  · simp [hx]

theorem definesOf_flatMap (fam : Char) (fl : List funcSpec) (g : funcSpec → List String)
    (k : Nat) (hg : ∀ f, definesOf fam (g f) = k) :
    definesOf fam (fl.flatMap g) = k * fl.length := by
  induction fl with
  | nil => simp [definesOf]
  | cons a t ih =>
    have ha := hg a
    unfold definesOf at ha ih ⊢
    rw [List.flatMap_cons, List.countP_append, ha, ih, List.length_cons]
    ring

theorem definesOf_append (fam : Char) (l₁ l₂ : List String) :
    definesOf fam (l₁ ++ l₂) = definesOf fam l₁ + definesOf fam l₂ := by
  simp [definesOf, List.countP_append]

theorem length_flatMap_const (fl : List funcSpec) (g : funcSpec → List String)
    (k : Nat) (hg : ∀ f, (g f).length = k) : (fl.flatMap g).length = k * fl.length := by
  induction fl with
  | nil => simp
  | cons a t ih =>
    rw [List.flatMap_cons, List.length_append, hg a, ih, List.length_cons]
    ring

/-- C7: in rename mode (3 or 4 parameters) the output is the `#ifndef
DETERMINISTIC` line, the non-deterministic definitions for double then single
precision, the `#else` line, the deterministic definitions for double then
single precision, and the `#endif` line.  Each descriptor contributes to each
non-deterministic block exactly one `#define x` line and one `#define y` line
(4n definitions for a table of n descriptors), and to each deterministic block
exactly one `#define x` line, aliased to the prefixed symbol, and no
`#define y` line (2n definitions). -/
theorem C7_rename_defines (fl : List funcSpec) (b : Bool) (prog a1 wdp wsp : String)
    (isaArg : Option String) :
    ∃ pfx isa isaub : String, ∃ ndD ndS dD dS : List String,
      pfx = (if a1 = "-" then "" else a1) ∧ isa = isaArg.getD "" ∧
      isaub = (if isaArg.isSome then "_" else "") ∧
      ndD = fl.flatMap (fun f => nonDetLines f pfx "" 'd' wdp isaub isa) ∧
      ndS = fl.flatMap (fun f => nonDetLines f pfx "f" 'f' wsp isaub isa) ∧
      dD = fl.flatMap (fun f => detLines f pfx "" 'd' wdp isaub isa) ∧
      dS = fl.flatMap (fun f => detLines f pfx "f" 'f' wsp isaub isa) ∧
      (main fl b (prog :: a1 :: wdp :: wsp :: isaArg.toList)).map Outcome.stdout =
        some ("#ifndef DETERMINISTIC\n\n" ++ String.join ndD ++ "\n" ++ String.join ndS ++
          "\n#else //#ifndef DETERMINISTIC\n\n" ++ String.join dD ++ "\n" ++ String.join dS ++
          "\n#endif // #ifndef DETERMINISTIC\n") ∧
      (∀ (f : funcSpec) (mark : String) (c : Char) (w : String),
        (nonDetLines f pfx mark c w isaub isa).length = 2 ∧
        definesOf 'x' (nonDetLines f pfx mark c w isaub isa) = 1 ∧
        definesOf 'y' (nonDetLines f pfx mark c w isaub isa) = 1 ∧
        detLines f pfx mark c w isaub isa =
          [aliasLine 'x' (shortToken f mark) (aliasTarget pfx f c w isaub isa)] ∧
        definesOf 'x' (detLines f pfx mark c w isaub isa) = 1 ∧
        definesOf 'y' (detLines f pfx mark c w isaub isa) = 0) ∧
      (ndD ++ ndS).length = 4 * fl.length ∧
      definesOf 'x' (ndD ++ ndS) = 2 * fl.length ∧
      definesOf 'y' (ndD ++ ndS) = 2 * fl.length ∧
      (dD ++ dS).length = 2 * fl.length ∧
      definesOf 'x' (dD ++ dS) = 2 * fl.length ∧
      definesOf 'y' (dD ++ dS) = 0 := by
  refine ⟨_, _, _, _, _, _, _, rfl, rfl, rfl, rfl, rfl, rfl, rfl, ?_, ?_, ?_, ?_, ?_, ?_, ?_, ?_⟩
  · rw [main_rename, Option.map_some', renameOutput_eq]
  · intro f mark c w
    refine ⟨rfl, ?_, ?_, rfl, ?_, ?_⟩
    · rw [definesOf_nonDetLines]; rfl
    · rw [definesOf_nonDetLines]; rfl
    · rw [definesOf_detLines]; rfl
    · rw [definesOf_detLines]; rfl
  · rw [List.length_append, length_flatMap_const fl _ 2 (by intro _; rfl),
      length_flatMap_const fl _ 2 (by intro _; rfl)]
    ring
  · rw [definesOf_append,
      definesOf_flatMap 'x' fl _ 1 (fun f => by rw [definesOf_nonDetLines]; rfl),
      definesOf_flatMap 'x' fl _ 1 (fun f => by rw [definesOf_nonDetLines]; rfl)]
    ring
  · rw [definesOf_append,
      definesOf_flatMap 'y' fl _ 1 (fun f => by rw [definesOf_nonDetLines]; rfl),
      definesOf_flatMap 'y' fl _ 1 (fun f => by rw [definesOf_nonDetLines]; rfl)]
    ring
  · rw [List.length_append, length_flatMap_const fl _ 1 (by intro _; rfl),
      length_flatMap_const fl _ 1 (by intro _; rfl)]
    ring
  · rw [definesOf_append,
      definesOf_flatMap 'x' fl _ 1 (fun f => by rw [definesOf_detLines]; rfl),
      definesOf_flatMap 'x' fl _ 1 (fun f => by rw [definesOf_detLines]; rfl)]
    ring
  · rw [definesOf_append,
      definesOf_flatMap 'y' fl _ 0 (fun f => by rw [definesOf_detLines]; rfl),
      definesOf_flatMap 'y' fl _ 0 (fun f => by rw [definesOf_detLines]; rfl)]
    ring

/-- C8: in rename mode with the prefix parameter `-`, a descriptor whose `ulp`
is not negative gets, in the non-deterministic double-precision block, the
definitions of `x<name><suffix>` and `y<name><suffix>` with one and the same
target `Sleef_<name>d<doubleWidth>_u<ulp, two digits zero-padded><isa>`; the
definitions of the descriptors before it come first, those of the descriptors
after it and the other blocks follow.  With the parameters `-`, `2`, `4` and
the descriptor `sin` of accuracy 1 both macros alias to `Sleef_sind2_u01`. -/
theorem C8_dash_alias (before after : List funcSpec) (f : funcSpec) (b : Bool)
    (prog wdp wsp : String) (isaArg : Option String) (hu : 0 ≤ f.ulp) :
    (∃ target rest : String,
      target = "Sleef_" ++ f.name ++ "d" ++ wdp ++ "_u" ++ zeroPad2 f.ulp.toNat ++
        isaArg.getD "" ∧
      (main (before ++ f :: after) b (prog :: "-" :: wdp :: wsp :: isaArg.toList)).map
          Outcome.stdout =
        some ("#ifndef DETERMINISTIC\n\n" ++
          String.join (before.flatMap fun g =>
            nonDetLines g "" "" 'd' wdp (if isaArg.isSome then "_" else "") (isaArg.getD "")) ++
          ("#define x" ++ f.name ++ ulpSuffixStr f.ulpSuffix ++ " " ++ target ++ "\n") ++
          ("#define y" ++ f.name ++ ulpSuffixStr f.ulpSuffix ++ " " ++ target ++ "\n") ++
          String.join (after.flatMap fun g =>
            nonDetLines g "" "" 'd' wdp (if isaArg.isSome then "_" else "") (isaArg.getD "")) ++
          "\n" ++ rest))
    ∧ (main [⟨"sin", 1, 0, 1⟩] b ["mkrename", "-", "2", "4"]).map Outcome.stdout =
        some ("#ifndef DETERMINISTIC\n\n" ++
          "#define xsin Sleef_sind2_u01\n" ++
          "#define ysin Sleef_sind2_u01\n" ++
          "\n" ++
          "#define xsinf Sleef_sinf4_u01\n" ++
          "#define ysinf Sleef_sinf4_u01\n" ++
          "\n#else //#ifndef DETERMINISTIC\n\n" ++
          "#define xsin Sleef_sind2_u01\n" ++
          "\n" ++
          "#define xsinf Sleef_sinf4_u01\n" ++
          "\n#endif // #ifndef DETERMINISTIC\n") := by
  constructor
  · refine ⟨_,
      String.join ((before ++ f :: after).flatMap fun g =>
        nonDetLines g "" "f" 'f' wsp (if isaArg.isSome then "_" else "") (isaArg.getD "")) ++
      "\n#else //#ifndef DETERMINISTIC\n\n" ++
      String.join ((before ++ f :: after).flatMap fun g =>
        detLines g "" "" 'd' wdp (if isaArg.isSome then "_" else "") (isaArg.getD "")) ++ "\n" ++
      String.join ((before ++ f :: after).flatMap fun g =>
        detLines g "" "f" 'f' wsp (if isaArg.isSome then "_" else "") (isaArg.getD "")) ++
      "\n#endif // #ifndef DETERMINISTIC\n", rfl, ?_⟩
    rw [main_rename, Option.map_some', renameOutput_eq]
    have hu' : f.ulp ≥ 0 := hu
    simp only [List.flatMap_append, List.flatMap_cons, join_append, nonDetLines, join_cons,
      aliasLine, shortToken, aliasTarget, hu', if_true]
    apply congrArg some
    apply String.ext
    simp only [String.data_append, List.append_assoc, String.singleton]
    rfl
  · cases b <;> rfl

/-- Instance of C8: the table `sin`, `pow` with the parameters `-`, `2`, `4`,
`avx`, at the descriptor `pow` of accuracy 10. -/
theorem C8_dash_alias_witness :
    (∃ target rest : String,
      target = "Sleef_" ++ "pow" ++ "d" ++ "2" ++ "_u" ++ zeroPad2 (10 : Int).toNat ++
        (some "avx").getD "" ∧
      (main ([⟨"sin", 35, 3, 0⟩] ++ ⟨"pow", 10, 1, 1⟩ :: []) false
          ("mkrename" :: "-" :: "2" :: "4" :: (some "avx").toList)).map Outcome.stdout =
        some ("#ifndef DETERMINISTIC\n\n" ++
          String.join ([⟨"sin", 35, 3, 0⟩].flatMap fun g =>
            nonDetLines g "" "" 'd' "2" (if (some "avx").isSome then "_" else "")
              ((some "avx").getD "")) ++
          ("#define x" ++ "pow" ++ ulpSuffixStr 1 ++ " " ++ target ++ "\n") ++
          ("#define y" ++ "pow" ++ ulpSuffixStr 1 ++ " " ++ target ++ "\n") ++
          String.join (([] : List funcSpec).flatMap fun g =>
            nonDetLines g "" "" 'd' "2" (if (some "avx").isSome then "_" else "")
              ((some "avx").getD "")) ++
          "\n" ++ rest)) :=
  (C8_dash_alias [⟨"sin", 35, 3, 0⟩] [] ⟨"pow", 10, 1, 1⟩ false "mkrename" "2" "4"
    (some "avx") (by decide)).1

/-- C9, counterexample: with four parameters (ISA label `avx`) and a
descriptor whose `ulp` is negative, the definitions of the non-deterministic
branch carry the underscore before the ISA label too: the targets are
`Sleef_ldexpd2_avx` and `Sleef_p_ldexpd2_avx`, and the target the claim
states, `Sleef_p_ldexpd2avx`, occurs nowhere in the output. -/
theorem C9_counterexample :
    ∃ out, main [⟨"ldexp", -1, 0, 3⟩] false ["mkrename", "p_", "2", "4", "avx"] = some out ∧
      out.stdout =
        "#ifndef DETERMINISTIC\n\n" ++
        "#define xldexp Sleef_ldexpd2_avx\n" ++
        "#define yldexp Sleef_p_ldexpd2_avx\n" ++
        "\n" ++
        "#define xldexpf Sleef_ldexpf4_avx\n" ++
        "#define yldexpf Sleef_p_ldexpf4_avx\n" ++
        "\n#else //#ifndef DETERMINISTIC\n\n" ++
        "#define xldexp Sleef_p_ldexpd2_avx\n" ++
        "\n" ++
        "#define xldexpf Sleef_p_ldexpf4_avx\n" ++
        "\n#endif // #ifndef DETERMINISTIC\n" ∧
      ¬ (("Sleef_" ++ "p_" ++ "ldexp" ++ "d" ++ "2" ++ "avx").data <:+: out.stdout.data) :=
  ⟨_, rfl, rfl, by decide⟩

/-- C9, amended: for a descriptor whose `ulp` is negative no accuracy code is
emitted, and the underscore before the ISA label is emitted in both branches,
exactly when the ISA parameter is supplied: every target is `Sleef_`, a
prefix, the name, the precision letter, the width, `isaub` and the ISA label,
where `isaub` is `_` with four parameters and empty with three, and the prefix
is empty for the `x` family of the non-deterministic branch and the prefix
parameter for the `y` family and for the deterministic branch. -/
theorem C9_underscore_both_branches (fl : List funcSpec) (b : Bool)
    (prog a1 wdp wsp : String) (isaArg : Option String) :
    ∃ pfx isa isaub : String,
      pfx = (if a1 = "-" then "" else a1) ∧ isa = isaArg.getD "" ∧
      isaub = (if isaArg.isSome then "_" else "") ∧
      (main fl b (prog :: a1 :: wdp :: wsp :: isaArg.toList)).map Outcome.stdout =
        some ("#ifndef DETERMINISTIC\n\n" ++
          String.join (fl.flatMap fun f => nonDetLines f pfx "" 'd' wdp isaub isa) ++ "\n" ++
          String.join (fl.flatMap fun f => nonDetLines f pfx "f" 'f' wsp isaub isa) ++
          "\n#else //#ifndef DETERMINISTIC\n\n" ++
          String.join (fl.flatMap fun f => detLines f pfx "" 'd' wdp isaub isa) ++ "\n" ++
          String.join (fl.flatMap fun f => detLines f pfx "f" 'f' wsp isaub isa) ++
          "\n#endif // #ifndef DETERMINISTIC\n") ∧
      ∀ (f : funcSpec) (mark : String) (c : Char) (w : String), f.ulp < 0 →
        nonDetLines f pfx mark c w isaub isa =
          ["#define x" ++ f.name ++ mark ++ " " ++
             ("Sleef_" ++ f.name ++ String.singleton c ++ w ++ isaub ++ isa) ++ "\n",
           "#define y" ++ f.name ++ mark ++ " " ++
             ("Sleef_" ++ pfx ++ f.name ++ String.singleton c ++ w ++ isaub ++ isa) ++ "\n"] ∧
        detLines f pfx mark c w isaub isa =
          ["#define x" ++ f.name ++ mark ++ " " ++
             ("Sleef_" ++ pfx ++ f.name ++ String.singleton c ++ w ++ isaub ++ isa) ++ "\n"] := by
  refine ⟨_, _, _, rfl, rfl, rfl, ?_, ?_⟩
  · rw [main_rename, Option.map_some', renameOutput_eq]
  · intro f mark c w hu
    have hu' : ¬ f.ulp ≥ 0 := by omega
    simp only [nonDetLines, detLines, aliasLine, shortToken, aliasTarget, hu', if_false]
    refine ⟨?_, ?_⟩
    · congr 1
      · apply String.ext
        simp [String.data_append, String.singleton]
      · congr 1
        apply String.ext
        simp [String.data_append, String.singleton]
    · congr 1
      apply String.ext
      simp [String.data_append, String.singleton]

/-- Instance of C9 as amended: the descriptor `ldexp` without accuracy, prefix
`p_` and ISA label `avx`. -/
theorem C9_underscore_both_branches_witness :
    ∃ pfx isa isaub : String,
      pfx = (if "p_" = "-" then "" else "p_") ∧ isa = (some "avx").getD "" ∧
      isaub = (if (some "avx").isSome then "_" else "") ∧
      nonDetLines ⟨"ldexp", -1, 0, 3⟩ pfx "" 'd' "2" isaub isa =
        ["#define x" ++ "ldexp" ++ "" ++ " " ++
           ("Sleef_" ++ "ldexp" ++ String.singleton 'd' ++ "2" ++ isaub ++ isa) ++ "\n",
         "#define y" ++ "ldexp" ++ "" ++ " " ++
           ("Sleef_" ++ pfx ++ "ldexp" ++ String.singleton 'd' ++ "2" ++ isaub ++ isa) ++ "\n"] ∧
      detLines ⟨"ldexp", -1, 0, 3⟩ pfx "" 'd' "2" isaub isa =
        ["#define x" ++ "ldexp" ++ "" ++ " " ++
           ("Sleef_" ++ pfx ++ "ldexp" ++ String.singleton 'd' ++ "2" ++ isaub ++ isa) ++ "\n"] := by
  obtain ⟨pfx, isa, isaub, h1, h2, h3, _, h5⟩ :=
    C9_underscore_both_branches [⟨"ldexp", -1, 0, 3⟩] false "mkrename" "p_" "2" "4" (some "avx")
  exact ⟨pfx, isa, isaub, h1, h2, h3, h5 ⟨"ldexp", -1, 0, 3⟩ "" 'd' "2" (by decide)⟩

/-! ### The accuracy code -/

theorem digitChar_isDigit (k : Nat) (h : k < 10) : (Nat.digitChar k).isDigit = true := by
  interval_cases k <;> decide

theorem toDigitsCore_isDigit (fuel n : Nat) (ds : List Char)
    (h : ∀ ch ∈ ds, ch.isDigit = true) :
    ∀ ch ∈ Nat.toDigitsCore 10 fuel n ds, ch.isDigit = true := by
  induction fuel generalizing n ds with
  | zero => simpa [Nat.toDigitsCore] using h
  | succ k ih =>
    have hd : ∀ ch ∈ Nat.digitChar (n % 10) :: ds, ch.isDigit = true := by
      intro ch hch
      rcases List.mem_cons.mp hch with e | e
      · rw [e]; exact digitChar_isDigit _ (Nat.mod_lt _ (by decide))
      · exact h ch e
    simp only [Nat.toDigitsCore]
    split
    · exact hd
    · exact ih _ _ hd

theorem zeroPad2_isDigit (n : Nat) : ∀ ch ∈ (zeroPad2 n).data, ch.isDigit = true := by
  have hr : ∀ ch ∈ (toString n).data, ch.isDigit = true := by
    show ∀ ch ∈ Nat.toDigits 10 n, ch.isDigit = true
    exact toDigitsCore_isDigit _ _ _ (by simp)
  unfold zeroPad2
  split
  · intro ch hch
    rw [String.data_append, List.mem_append] at hch
    rcases hch with e | e
    · have : ch = '0' := by simpa using e
      rw [this]; decide
    · exact hr ch e
  · exact hr

theorem zeroPad2_length (n : Nat) :
    2 ≤ (zeroPad2 n).length ∧ ((zeroPad2 n).length = 2 ↔ n < 100) := by
  have hs : (toString n).length = (Nat.toDigits 10 n).length := rfl
  unfold zeroPad2
  by_cases h10 : n < 10
  · have h1 := toDigits_length_lt_ten n h10
    simp only [h10, if_true, String.length_append, hs, h1]
    exact ⟨by decide, by constructor <;> intro <;> first | rfl | omega⟩
  · simp only [h10, if_false, hs]
    have h2 := toDigits_length_ge_ten n (by omega)
    refine ⟨h2, ?_, ?_⟩
    · intro e
      by_contra h100
      have h3 := toDigits_length_ge_hundred n (by omega)
      omega
    · intro h100
      have h3 : (Nat.repr n).length ≤ 2 := Nat.repr_length n 2 (by decide) (by omega)
      have h4 : (Nat.repr n).length = (Nat.toDigits 10 n).length := rfl
      omega

/-- C6, counterexample: for the accuracy 3500 (the suffix table has the entry
`_u3500` for it) the accuracy code in the prototype name and in the rename
targets is `_u3500`, four digits and not two. -/
theorem C6_counterexample :
    outputFunctionDeclaration ⟨"fastsin", 3500, 5, 0⟩ none 'd' "2" "vd" "vd2" "vi" "vi2" "" "" =
      some "IMPORT CONST vd Sleef_fastsind2_u3500(vd);\n"
    ∧ renameLoop1 [⟨"fastsin", 3500, 5, 0⟩] "" "2" "" "" "" =
        "#define xfastsin_u3500 Sleef_fastsind2_u3500\n" ++
        "#define yfastsin_u3500 Sleef_fastsind2_u3500\n"
    ∧ fmt02d 3500 = "3500" ∧ (fmt02d 3500).length ≠ 2 := by
  refine ⟨by rfl, by rfl, by rfl, by decide⟩

/-- C6, amended: for a descriptor whose `ulp` is not negative the accuracy code
in the prototype name and in every rename target is `_u` followed by the
decimal digits of `ulp`, zero-padded to at least two digits: exactly two digits
when `ulp` is below 100 (1 gives `_u01`, 35 gives `_u35`), and more than two
when it is 100 or more (3500 gives `_u3500`). -/
theorem C6_accuracy_code (f : funcSpec) (hu : 0 ≤ f.ulp) :
    ∃ code : String, code = zeroPad2 f.ulp.toNat ∧
      (∀ ( atrPrefix : Option String) (c : Char) (w rt isa : String),
        declarationHead f atrPrefix c w rt isa =
          "IMPORT CONST " ++ rt ++ " Sleef_" ++ atrPrefix.getD "" ++ f.name ++
            String.singleton c ++ w ++ "_u" ++ code ++ isa ++ "(") ∧
      (∀ pfx w isa isaub out : String,
        renameLoop1 [f] pfx w isa isaub out =
          out ++ ("#define x" ++ f.name ++ ulpSuffixStr f.ulpSuffix ++ " Sleef_" ++
            f.name ++ "d" ++ w ++ "_u" ++ code ++ isa ++ "\n") ++
          ("#define y" ++ f.name ++ ulpSuffixStr f.ulpSuffix ++ " Sleef_" ++ pfx ++
            f.name ++ "d" ++ w ++ "_u" ++ code ++ isa ++ "\n") ∧
        renameLoop2 [f] pfx w isa isaub out =
          out ++ ("#define x" ++ f.name ++ "f" ++ ulpSuffixStr f.ulpSuffix ++ " Sleef_" ++
            f.name ++ "f" ++ w ++ "_u" ++ code ++ isa ++ "\n") ++
          ("#define y" ++ f.name ++ "f" ++ ulpSuffixStr f.ulpSuffix ++ " Sleef_" ++ pfx ++
            f.name ++ "f" ++ w ++ "_u" ++ code ++ isa ++ "\n") ∧
        renameLoop3 [f] pfx w isa isaub out =
          out ++ ("#define x" ++ f.name ++ ulpSuffixStr f.ulpSuffix ++ " Sleef_" ++ pfx ++
            f.name ++ "d" ++ w ++ "_u" ++ code ++ isa ++ "\n") ∧
        renameLoop4 [f] pfx w isa isaub out =
          out ++ ("#define x" ++ f.name ++ "f" ++ ulpSuffixStr f.ulpSuffix ++ " Sleef_" ++ pfx ++
            f.name ++ "f" ++ w ++ "_u" ++ code ++ isa ++ "\n")) ∧
      (∀ ch ∈ code.data, ch.isDigit = true) ∧
      2 ≤ code.length ∧ (code.length = 2 ↔ f.ulp < 100) ∧
      zeroPad2 1 = "01" ∧ zeroPad2 35 = "35" ∧ zeroPad2 3500 = "3500" := by
  have hu' : f.ulp ≥ 0 := hu
  have hcode := fmt02d_eq_zeroPad2 f.ulp hu
  refine ⟨_, rfl, ?_, ?_, zeroPad2_isDigit _, (zeroPad2_length _).1, ?_, by decide, by decide,
    by rfl⟩
  · intro atrPrefix c w rt isa
    cases atrPrefix <;> simp only [declarationHead, hu', if_true, hcode, Option.getD]
  · intro pfx w isa isaub out
    simp only [renameLoop1, renameLoop2, renameLoop3, renameLoop4, List.foldl_cons,
      List.foldl_nil, hu', if_true, hcode]
    refine ⟨?_, ?_, ?_, ?_⟩ <;> first
      | (apply String.ext
         simp [String.data_append])
      | exact True.intro
  · rw [(zeroPad2_length _).2]
    omega

/-- Instance of C6 as amended: the descriptor `sin` of accuracy 35. -/
theorem C6_accuracy_code_witness :
    ∃ code : String, code = zeroPad2 (35 : Int).toNat ∧
      (∀ ( atrPrefix : Option String) (c : Char) (w rt isa : String),
        declarationHead ⟨"sin", 35, 3, 0⟩ atrPrefix c w rt isa =
          "IMPORT CONST " ++ rt ++ " Sleef_" ++ atrPrefix.getD "" ++ "sin" ++
            String.singleton c ++ w ++ "_u" ++ code ++ isa ++ "(") ∧
      (∀ ch ∈ code.data, ch.isDigit = true) ∧
      2 ≤ code.length ∧ (code.length = 2 ↔ (35 : Int) < 100) := by
  obtain ⟨code, h1, h2, _, h4, h5, h6, _⟩ := C6_accuracy_code ⟨"sin", 35, 3, 0⟩ (by decide)
  exact ⟨code, h1, h2, h4, h5, h6⟩

/-! ### Declaration mode -/

theorem outputFunctionDeclaration_eq_line (f : funcSpec) ( atrPrefix : Option String)
    (c : Char) (w fp fpPair it ipt isa cc : String)
    (h0 : 0 ≤ f.funcType) (h8 : f.funcType ≤ 8) :
    outputFunctionDeclaration f atrPrefix c w fp fpPair it ipt isa cc =
      some (if c = 'f' ∧ (f.funcType = 3 ∨ f.funcType = 4) then ""
        else prototypeLine f (atrPrefix.getD "") c w fp fpPair it isa cc) := by
  by_cases hskip : c = 'f' ∧ (f.funcType = 3 ∨ f.funcType = 4)
  · simp only [outputFunctionDeclaration, hskip, and_self, if_true]
  · obtain ⟨shape, hshape⟩ := categoryShape_isSome f.funcType fp fpPair it h0 h8
    rw [outputFunctionDeclaration_eq f atrPrefix c w fp fpPair it ipt isa cc shape hshape hskip,
      if_neg hskip]
    simp only [prototypeLine, hshape]

theorem foldlM_append_eq_join {α : Type} (g : String → α → Option String) (text : α → String)
    (l : List α) (out : String) (h : ∀ a ∈ l, ∀ o, g o a = some (o ++ text a)) :
    l.foldlM g out = some (out ++ String.join (l.map text)) := by
  induction l generalizing out with
  | nil =>
    simp only [List.foldlM_nil, List.map_nil]
    apply congrArg some
    apply String.ext
    simp [String.data_append]
  | cons a t ih =>
    rw [List.foldlM_cons, h a (by simp) out]
    simp only [Option.bind_eq_bind, Option.some_bind]
    rw [ih _ (fun x hx => h x (by simp [hx]))]
    simp only [List.map_cons, join_cons, String.append_assoc]

theorem declarationLoop_eq (fl : List funcSpec) (p : String) (c : Char)
    (w fp fpPair it ipt isa cc out : String)
    (h : ∀ f ∈ fl, 0 ≤ f.funcType ∧ f.funcType ≤ 8) :
    declarationLoop fl p c w fp fpPair it ipt isa cc out =
      some (out ++ String.join (fl.map fun f => prototypeText f p c w fp fpPair it isa cc)) := by
  unfold declarationLoop
  apply foldlM_append_eq_join
  intro a ha o
  have hr := h a ha
  rw [outputFunctionDeclaration_eq_line a none c w fp fpPair it ipt isa cc hr.1 hr.2,
    outputFunctionDeclaration_eq_line a (some p) c w fp fpPair it ipt isa cc hr.1 hr.2]
  simp only [Option.bind_eq_bind, Option.some_bind, Option.pure_def, prototypeText, Option.getD]
  split
  · apply congrArg some
    apply String.ext
    simp [String.data_append]
  · simp only [String.append_assoc]

theorem declarationOutput_eq (fl : List funcSpec) (b : Bool)
    (p wdp wsp vd vf vi arch isa : String)
    (h : ∀ f ∈ fl, 0 ≤ f.funcType ∧ f.funcType ≤ 8) (hvd : vd ≠ "-") :
    declarationOutput fl b p wdp wsp vd vf vi arch isa =
      some ("#ifdef " ++ arch ++ "\n" ++ "\n" ++
        pairTypedef arch "svfloat64x2_t" vd (getPairTypeName vd) ++
        String.join (fl.map fun f => prototypeText f p 'd' (if isa = "sve" then "x" else wdp)
          vd (getPairTypeName vd) vi isa
          (if b = true ∧ isa = "advsimd" then " __attribute__((aarch64_vector_pcs))" else "")) ++
        "\n" ++
        pairTypedef arch "svfloat32x2_t" vf (getPairTypeName vf) ++
        String.join (fl.map fun f => prototypeText f p 'f' (if isa = "sve" then "x" else wsp)
          vf (getPairTypeName vf) vi isa
          (if b = true ∧ isa = "advsimd" then " __attribute__((aarch64_vector_pcs))" else "")) ++
        "#endif\n") := by
  simp only [declarationOutput, hvd, ne_eq, not_false_eq_true, if_true,
    declarationLoop_eq _ _ _ _ _ _ _ _ _ _ _ h, Option.bind_eq_bind, Option.some_bind,
    Option.pure_def]

theorem declarationOutput_dash (fl : List funcSpec) (b : Bool)
    (p wdp wsp vf vi arch isa : String) :
    declarationOutput fl b p wdp wsp "-" vf vi arch isa =
      some ("#ifdef " ++ arch ++ "\n" ++ "#endif\n") := by
  simp [declarationOutput]

theorem main_declaration (fl : List funcSpec) (b : Bool)
    (prog a1 wdp wsp vd vf vi vi2 arch : String) (isaArg : Option String) :
    main fl b (prog :: a1 :: wdp :: wsp :: vd :: vf :: vi :: vi2 :: arch :: isaArg.toList) =
      (declarationOutput fl b (if a1 = "-" then "" else a1) wdp wsp vd vf vi arch
        (isaArg.getD "")).map fun out => { stdout := out, stderr := "", status := 0 } := by
  cases isaArg with
  | none =>
    rcases h : declarationOutput fl b (if a1 = "-" then "" else a1) wdp wsp vd vf vi arch ""
      with _ | out <;> simp [main, h]
  | some i =>
    rcases h : declarationOutput fl b (if a1 = "-" then "" else a1) wdp wsp vd vf vi arch i
      with _ | out <;> simp [main, h]

/-! ### The driver -/

theorem main_usage (fl : List funcSpec) (b : Bool) (prog : String) (params : List String)
    (h : params.length < 3) :
    main fl b (prog :: params) = some { stdout := "", stderr := usageText prog, status := -1 } := by
  have hlt : (prog :: params).length < 4 := by simp; omega
  simp only [main, hlt, if_true]
  simp

theorem main_missing (fl : List funcSpec) (b : Bool) (prog a1 wdp wsp x1 x2 : String)
    (rest : List String) (h : rest.length < 3) :
    main fl b (prog :: a1 :: wdp :: wsp :: x1 :: x2 :: rest) = none := by
  rcases rest with _ | ⟨r1, _ | ⟨r2, _ | ⟨r3, r4⟩⟩⟩
  · simp [main]
  · simp [main]
  · simp [main]
  · simp at h; omega

theorem main_many (fl : List funcSpec) (b : Bool)
    (prog a1 wdp wsp vd vf vi vi2 arch i j : String) (rest : List String) :
    main fl b (prog :: a1 :: wdp :: wsp :: vd :: vf :: vi :: vi2 :: arch :: i :: j :: rest) =
      (declarationOutput fl b (if a1 = "-" then "" else a1) wdp wsp vd vf vi arch "").map
        fun out => { stdout := out, stderr := "", status := 0 } := by
  rcases h : declarationOutput fl b (if a1 = "-" then "" else a1) wdp wsp vd vf vi arch ""
    with _ | out <;> simp [main, h]

theorem main_status_zero (fl : List funcSpec) (b : Bool) (argv : List String) (out : Outcome)
    (hlen : 4 ≤ argv.length) (h : main fl b argv = some out) : out.status = 0 := by
  rcases argv with _ | ⟨prog, _ | ⟨a1, _ | ⟨wdp, _ | ⟨wsp, rest⟩⟩⟩⟩ <;>
    try (simp at hlen; done)
  rcases rest with _ | ⟨x1, _ | ⟨x2, rest⟩⟩
  · have e := main_rename fl b prog a1 wdp wsp none
    simp only [Option.toList] at e
    rw [e] at h
    cases h; rfl
  · have e := main_rename fl b prog a1 wdp wsp (some x1)
    simp only [Option.toList] at e
    rw [e] at h
    cases h; rfl
  · have hdecl : ∀ {d : Option String},
        d.map (fun o => ({ stdout := o, stderr := "", status := 0 } : Outcome)) = some out →
        out.status = 0 := by
      intro d hd
      cases d with
      | none => simp at hd
      | some o => simp at hd; rw [← hd]
    rcases rest with _ | ⟨vi, _ | ⟨vi2, _ | ⟨arch, rest⟩⟩⟩
    · rw [main_missing _ _ _ _ _ _ _ _ _ (by simp)] at h; cases h
    · rw [main_missing _ _ _ _ _ _ _ _ _ (by simp)] at h; cases h
    · rw [main_missing _ _ _ _ _ _ _ _ _ (by simp)] at h; cases h
    · rcases rest with _ | ⟨i, _ | ⟨j, rest⟩⟩
      · have e := main_declaration fl b prog a1 wdp wsp x1 x2 vi vi2 arch none
        simp only [Option.toList] at e
        rw [e] at h
        exact hdecl h
      · have e := main_declaration fl b prog a1 wdp wsp x1 x2 vi vi2 arch (some i)
        simp only [Option.toList] at e
        rw [e] at h
        exact hdecl h
      · rw [main_many] at h
        exact hdecl h

theorem renameOutput_ne_empty (fl : List funcSpec) (p wdp wsp isa isaub : String) :
    renameOutput fl p wdp wsp isa isaub ≠ "" := by
  intro h
  have hd := congrArg String.data h
  rw [renameOutput_eq] at hd
  simp [String.data_append] at hd

theorem declarationOutput_some (fl : List funcSpec) (b : Bool)
    (p wdp wsp vd vf vi arch isa : String)
    (h : ∀ f ∈ fl, 0 ≤ f.funcType ∧ f.funcType ≤ 8) :
    ∃ o, declarationOutput fl b p wdp wsp vd vf vi arch isa = some o ∧ o ≠ "" := by
  by_cases hvd : vd = "-"
  · subst hvd
    refine ⟨_, declarationOutput_dash fl b p wdp wsp vf vi arch isa, ?_⟩
    intro e
    have hd := congrArg String.data e
    simp [String.data_append] at hd
  · refine ⟨_, declarationOutput_eq fl b p wdp wsp vd vf vi arch isa h hvd, ?_⟩
    intro e
    have hd := congrArg String.data e
    simp [String.data_append] at hd

/-- C10: the run ends in the usage error (nothing on standard output, the
diagnostic on standard error, `exit(-1)`) exactly when fewer than 3 parameters
follow the program name, and no other run has a non-zero status; with 3 or 4
parameters, and with 8 or 9 parameters over a table of categories 0..8, the
run writes a non-empty text to standard output and exits with status zero. -/
theorem C10_usage_error (fl : List funcSpec) (b : Bool) (prog : String)
    (params : List String) :
    (main fl b (prog :: params) =
        some { stdout := "", stderr := usageText prog, status := -1 } ↔ params.length < 3)
    ∧ ((∃ out, main fl b (prog :: params) = some out ∧ out.status ≠ 0) ↔ params.length < 3)
    ∧ (params.length = 3 ∨ params.length = 4 →
        ∃ out, main fl b (prog :: params) = some out ∧ out.stdout ≠ "" ∧ out.stderr = "" ∧
          out.status = 0)
    ∧ ((∀ f ∈ fl, 0 ≤ f.funcType ∧ f.funcType ≤ 8) →
        params.length = 8 ∨ params.length = 9 →
        ∃ out, main fl b (prog :: params) = some out ∧ out.stdout ≠ "" ∧ out.stderr = "" ∧
          out.status = 0) := by
  have hzero : ¬ params.length < 3 → ∀ out, main fl b (prog :: params) = some out →
      out.status = 0 := by
    intro hge out hout
    exact main_status_zero fl b (prog :: params) out (by simp; omega) hout
  refine ⟨⟨fun h => ?_, main_usage fl b prog params⟩, ⟨fun h => ?_, fun h => ?_⟩, ?_, ?_⟩
  · by_contra hge
    have := hzero hge _ h
    simp at this
  · by_contra hge
    obtain ⟨out, hout, hs⟩ := h
    exact hs (hzero hge out hout)
  · exact ⟨_, main_usage fl b prog params h, by simp⟩
  · intro h34
    rcases params with _ | ⟨a1, _ | ⟨wdp, _ | ⟨wsp, _ | ⟨i, _ | ⟨j, rest⟩⟩⟩⟩⟩ <;>
      try (simp at h34; done)
    · exact ⟨_, main_rename fl b prog a1 wdp wsp none, renameOutput_ne_empty _ _ _ _ _ _,
        rfl, rfl⟩
    · exact ⟨_, main_rename fl b prog a1 wdp wsp (some i), renameOutput_ne_empty _ _ _ _ _ _,
        rfl, rfl⟩
  · intro htable h89
    rcases params with _ | ⟨a1, _ | ⟨wdp, _ | ⟨wsp, _ | ⟨vd, _ | ⟨vf, _ | ⟨vi, _ | ⟨vi2,
      _ | ⟨arch, _ | ⟨i, _ | ⟨j, rest⟩⟩⟩⟩⟩⟩⟩⟩⟩⟩ <;> try (simp at h89; done)
    · obtain ⟨o, ho, hne⟩ := declarationOutput_some fl b (if a1 = "-" then "" else a1) wdp wsp
        vd vf vi arch "" htable
      have e := main_declaration fl b prog a1 wdp wsp vd vf vi vi2 arch none
      simp only [Option.toList, Option.getD, ho, Option.map_some'] at e
      exact ⟨_, e, hne, rfl, rfl⟩
    · obtain ⟨o, ho, hne⟩ := declarationOutput_some fl b (if a1 = "-" then "" else a1) wdp wsp
        vd vf vi arch i htable
      have e := main_declaration fl b prog a1 wdp wsp vd vf vi vi2 arch (some i)
      simp only [Option.toList, Option.getD, ho, Option.map_some'] at e
      exact ⟨_, e, hne, rfl, rfl⟩

/-- Instance of C10: a run with 3 parameters and a run with 8 parameters over
the table holding `sin` of category 0. -/
theorem C10_usage_error_witness :
    (∃ out, main [⟨"sin", 10, 1, 0⟩] false ("mkrename" :: ["-", "2", "4"]) = some out ∧
        out.stdout ≠ "" ∧ out.stderr = "" ∧ out.status = 0)
    ∧ (∃ out, main [⟨"sin", 10, 1, 0⟩] false
          ("mkrename" :: ["-", "2", "4", "vd", "vf", "vi", "vi2", "ARCH"]) = some out ∧
        out.stdout ≠ "" ∧ out.stderr = "" ∧ out.status = 0) :=
  ⟨(C10_usage_error [⟨"sin", 10, 1, 0⟩] false "mkrename" ["-", "2", "4"]).2.2.1 (by decide),
   (C10_usage_error [⟨"sin", 10, 1, 0⟩] false "mkrename"
      ["-", "2", "4", "vd", "vf", "vi", "vi2", "ARCH"]).2.2.2 (by decide) (by decide)⟩

theorem prototypeLine_form (f : funcSpec) (pfx : String) (c : Char)
    (w fp fpPair it isa cc : String) (h0 : 0 ≤ f.funcType) (h8 : f.funcType ≤ 8) :
    ∃ body, prototypeLine f pfx c w fp fpPair it isa cc = "IMPORT CONST " ++ body ++ ";\n" := by
  obtain ⟨shape, hshape⟩ := categoryShape_isSome f.funcType fp fpPair it h0 h8
  refine ⟨shape.1 ++ " " ++ symbolName pfx f.name c w f.ulp isa ++ "(" ++
    ", ".intercalate shape.2 ++ ")" ++ (if f.funcType = 7 ∨ f.funcType = 8 then "" else cc), ?_⟩
  simp only [prototypeLine, hshape, String.append_assoc]

/-- C5, counterexample: with the double type name `-` the declaration branch
emits only the `#ifdef` and `#endif` lines, so the descriptor `sin` of
category 0 has no prototype line in either precision. -/
theorem C5_counterexample :
    ∃ out, main [⟨"sin", 10, 1, 0⟩] false
        ["mkrename", "p_", "2", "4", "-", "vf", "vi", "vi2", "ARCH"] = some out ∧
      out.stdout = "#ifdef ARCH\n#endif\n" ∧
      ¬ ("IMPORT CONST".data <:+: out.stdout.data) :=
  ⟨_, rfl, rfl, by decide⟩

/-- C5, amended: in declaration mode (8 or 9 parameters) with a double type
name other than `-` and a table of categories 0..8, the output is the
`#ifdef` line, the guarded typedef of the double pair type, what each
descriptor contributes in double precision, the guarded typedef of the single
pair type, what each descriptor contributes in single precision, and the
`#endif` line.  A descriptor contributes to the double-precision block its
unprefixed and its prefixed prototype line; to the single-precision block it
contributes nothing when its category is 3 or 4, and its unprefixed and
prefixed prototype line otherwise.  Each prototype line starts with
`IMPORT CONST ` and ends with `;` and a newline. -/
theorem C5_precision_lines (fl : List funcSpec) (b : Bool)
    (prog a1 wdp wsp vd vf vi vi2 arch : String) (isaArg : Option String)
    (htable : ∀ f ∈ fl, 0 ≤ f.funcType ∧ f.funcType ≤ 8) (hvd : vd ≠ "-") :
    ∃ pfx isa wd ws cc : String,
      pfx = (if a1 = "-" then "" else a1) ∧ isa = isaArg.getD "" ∧
      wd = (if isa = "sve" then "x" else wdp) ∧ ws = (if isa = "sve" then "x" else wsp) ∧
      cc = (if b = true ∧ isa = "advsimd" then " __attribute__((aarch64_vector_pcs))" else "") ∧
      (main fl b (prog :: a1 :: wdp :: wsp :: vd :: vf :: vi :: vi2 :: arch ::
          isaArg.toList)).map Outcome.stdout =
        some ("#ifdef " ++ arch ++ "\n" ++ "\n" ++
          pairTypedef arch "svfloat64x2_t" vd (getPairTypeName vd) ++
          String.join (fl.map fun f =>
            prototypeText f pfx 'd' wd vd (getPairTypeName vd) vi isa cc) ++
          "\n" ++
          pairTypedef arch "svfloat32x2_t" vf (getPairTypeName vf) ++
          String.join (fl.map fun f =>
            prototypeText f pfx 'f' ws vf (getPairTypeName vf) vi isa cc) ++
          "#endif\n") ∧
      ∀ f ∈ fl,
        prototypeText f pfx 'd' wd vd (getPairTypeName vd) vi isa cc =
          prototypeLine f "" 'd' wd vd (getPairTypeName vd) vi isa cc ++
          prototypeLine f pfx 'd' wd vd (getPairTypeName vd) vi isa cc ∧
        (f.funcType = 3 ∨ f.funcType = 4 →
          prototypeText f pfx 'f' ws vf (getPairTypeName vf) vi isa cc = "") ∧
        (¬ (f.funcType = 3 ∨ f.funcType = 4) →
          prototypeText f pfx 'f' ws vf (getPairTypeName vf) vi isa cc =
            prototypeLine f "" 'f' ws vf (getPairTypeName vf) vi isa cc ++
            prototypeLine f pfx 'f' ws vf (getPairTypeName vf) vi isa cc) ∧
        ∀ (q : String) (c : Char) (w fp fpPair : String),
          ∃ body, prototypeLine f q c w fp fpPair vi isa cc = "IMPORT CONST " ++ body ++ ";\n" := by
  refine ⟨_, _, _, _, _, rfl, rfl, rfl, rfl, rfl, ?_, ?_⟩
  · rw [main_declaration, declarationOutput_eq _ _ _ _ _ _ _ _ _ _ htable hvd, Option.map_some',
      Option.map_some']
  · intro f hf
    have hr := htable f hf
    refine ⟨?_, ?_, ?_, ?_⟩
    · have hd : ¬ ('d' = 'f' ∧ (f.funcType = 3 ∨ f.funcType = 4)) :=
        fun h => absurd h.1 (by decide)
      simp only [prototypeText, hd, if_false]
    · intro h34
      simp only [prototypeText, h34, and_self, if_true]
    · intro h34
      simp only [prototypeText, h34, and_false, if_false]
    · intro q c w fp fpPair
      exact prototypeLine_form f q c w fp fpPair vi _ _ hr.1 hr.2

/-- Instance of C5 as amended: the table `sin` (category 0), `ldexp`
(category 3) with the type names `vd`, `vf`, `vi` and the ISA label `avx`. -/
theorem C5_precision_lines_witness :
    ∃ pfx isa wd ws cc : String,
      pfx = (if "p_" = "-" then "" else "p_") ∧ isa = (some "avx").getD "" ∧
      wd = (if isa = "sve" then "x" else "2") ∧ ws = (if isa = "sve" then "x" else "4") ∧
      cc = (if false = true ∧ isa = "advsimd" then " __attribute__((aarch64_vector_pcs))"
        else "") ∧
      prototypeText ⟨"ldexp", -1, 0, 3⟩ pfx 'd' wd "vd" (getPairTypeName "vd") "vi" isa cc =
          prototypeLine ⟨"ldexp", -1, 0, 3⟩ "" 'd' wd "vd" (getPairTypeName "vd") "vi" isa cc ++
          prototypeLine ⟨"ldexp", -1, 0, 3⟩ pfx 'd' wd "vd" (getPairTypeName "vd") "vi" isa cc ∧
      prototypeText ⟨"ldexp", -1, 0, 3⟩ pfx 'f' ws "vf" (getPairTypeName "vf") "vi" isa cc = "" ∧
      prototypeText ⟨"sin", 10, 1, 0⟩ pfx 'f' ws "vf" (getPairTypeName "vf") "vi" isa cc =
          prototypeLine ⟨"sin", 10, 1, 0⟩ "" 'f' ws "vf" (getPairTypeName "vf") "vi" isa cc ++
          prototypeLine ⟨"sin", 10, 1, 0⟩ pfx 'f' ws "vf" (getPairTypeName "vf") "vi" isa cc := by
  obtain ⟨pfx, isa, wd, ws, cc, h1, h2, h3, h4, h5, _, h7⟩ :=
    C5_precision_lines [⟨"sin", 10, 1, 0⟩, ⟨"ldexp", -1, 0, 3⟩] false "mkrename" "p_" "2" "4"
      "vd" "vf" "vi" "vi2" "ARCH" (some "avx") (by decide) (by decide)
  exact ⟨pfx, isa, wd, ws, cc, h1, h2, h3, h4, h5,
    (h7 ⟨"ldexp", -1, 0, 3⟩ (by simp)).1,
    (h7 ⟨"ldexp", -1, 0, 3⟩ (by simp)).2.1 (Or.inl rfl),
    (h7 ⟨"sin", 10, 1, 0⟩ (by simp)).2.2.1 (by decide)⟩

/-! ### Collisions and iteration of the pair-type name -/

theorem getPairTypeName_inj_iff (a b : String) :
    getPairTypeName a = getPairTypeName b ↔ replaceSpaces a = replaceSpaces b := by
  rw [getPairTypeName_eq, getPairTypeName_eq]
  constructor
  · intro h
    have hd := congrArg String.data h
    simp only [String.data_append, List.append_assoc] at hd
    have h1 := List.append_cancel_left hd
    have h2 := List.append_cancel_right h1
    exact String.ext h2
  · intro h
    rw [h]

theorem map_underscore_injective (l₁ l₂ : List Char) (h₁ : '_' ∉ l₁) (h₂ : '_' ∉ l₂)
    (h : l₁.map (fun c => if c = ' ' then '_' else c) =
      l₂.map (fun c => if c = ' ' then '_' else c)) : l₁ = l₂ := by
  induction l₁ generalizing l₂ with
  | nil =>
    cases l₂ with
    | nil => rfl
    | cons y t => simp at h
  | cons x s ih =>
    cases l₂ with
    | nil => simp at h
    | cons y t =>
      simp only [List.map_cons, List.cons.injEq] at h
      simp only [List.mem_cons, not_or] at h₁ h₂
      have hx : x ≠ '_' := fun e => h₁.1 e.symm
      have hy : y ≠ '_' := fun e => h₂.1 e.symm
      have hxy : x = y := by
        have h0 := h.1
        by_cases ex : x = ' ' <;> by_cases ey : y = ' '
        · rw [ex, ey]
        · rw [if_pos ex, if_neg ey] at h0
          exact absurd h0.symm hy
        · rw [if_neg ex, if_pos ey] at h0
          exact absurd h0 hx
        · rw [if_neg ex, if_neg ey] at h0
          exact h0
      rw [hxy, ih t h₁.2 h₂.2 h.2]

/-- C15: two scalar names get the same pair-type name exactly when they are
equal after every space is replaced by an underscore; `vector float` and
`vector_float` are distinct and collide; two distinct names without an
underscore never collide. -/
theorem C15_collisions (a b : String) :
    (getPairTypeName a = getPairTypeName b ↔ replaceSpaces a = replaceSpaces b)
    ∧ ("vector float" ≠ "vector_float" ∧
        getPairTypeName "vector float" = getPairTypeName "vector_float")
    ∧ ('_' ∉ a.data → '_' ∉ b.data → a ≠ b → getPairTypeName a ≠ getPairTypeName b) := by
  refine ⟨getPairTypeName_inj_iff a b, ⟨by decide, by decide⟩, ?_⟩
  intro ha hb hne heq
  rw [getPairTypeName_inj_iff] at heq
  have hd := congrArg String.data heq
  exact hne (String.ext (map_underscore_injective a.data b.data ha hb hd))

/-- Instance of C15: the names `vector float` and `vector double`, which have
no underscore. -/
theorem C15_collisions_witness :
    getPairTypeName "vector float" ≠ getPairTypeName "vector double" :=
  (C15_collisions "vector float" "vector double").2.2 (by decide) (by decide) (by decide)

theorem getPairTypeName_no_space (s : String) : ' ' ∉ (getPairTypeName s).data := by
  rw [getPairTypeName_eq]
  have h := replaceSpaces_no_space s
  simp only [String.data_append, List.mem_append, not_or]
  exact ⟨⟨by decide, h⟩, by decide⟩

theorem replaceSpaces_of_no_space (t : String) (h : ' ' ∉ t.data) : replaceSpaces t = t := by
  apply String.ext
  show t.data.map (fun c => if c = ' ' then '_' else c) = t.data
  generalize t.data = l at h
  induction l with
  | nil => rfl
  | cons x r ih =>
    simp only [List.mem_cons, not_or] at h
    have hx : ¬ x = ' ' := fun e => h.1 e.symm
    simp only [List.map_cons, if_neg hx, ih h.2]

/-- C17, counterexample: applied to its own result for `double` the synthesis
gives `Sleef_Sleef_double_2_2`, not `Sleef_double_2`. -/
theorem C17_counterexample :
    getPairTypeName (getPairTypeName "double") = "Sleef_Sleef_double_2_2"
    ∧ getPairTypeName (getPairTypeName "double") ≠ getPairTypeName "double" := by
  refine ⟨by decide, by decide⟩

/-- C17, amended: the synthesis is a function of the scalar name alone and it
is not idempotent: applied to its own result it wraps the name once more,
`getPairTypeName (getPairTypeName s)` is `Sleef_`, then `getPairTypeName s`,
then `_2`, which is 8 characters longer than `getPairTypeName s` and so never
equal to it. -/
theorem C17_iterated (s : String) :
    getPairTypeName (getPairTypeName s) = "Sleef_" ++ getPairTypeName s ++ "_2"
    ∧ (getPairTypeName (getPairTypeName s)).length = (getPairTypeName s).length + 8
    ∧ getPairTypeName (getPairTypeName s) ≠ getPairTypeName s := by
  have hfix : replaceSpaces (getPairTypeName s) = getPairTypeName s :=
    replaceSpaces_of_no_space _ (getPairTypeName_no_space s)
  have h1 : getPairTypeName (getPairTypeName s) = "Sleef_" ++ getPairTypeName s ++ "_2" := by
    rw [getPairTypeName_eq (getPairTypeName s), hfix]
  have h2 : (getPairTypeName (getPairTypeName s)).length = (getPairTypeName s).length + 8 := by
    rw [h1, String.length_append, String.length_append]
    have e1 : "Sleef_".length = 6 := by decide
    have e2 : "_2".length = 2 := by decide
    omega
  refine ⟨h1, h2, ?_⟩
  intro e
  rw [e] at h2
  omega

/-- C14: for a category in 0..6, when a line is printed, the line is the text
up to the parameter list, the closing parenthesis, the calling-convention
text, the semicolon and the newline; for the categories 7 and 8 the line ends
with `);` and the newline right after the parameter list, and it is the same
line whatever the calling-convention text is. -/
theorem C14_calling_convention (f : funcSpec) ( atrPrefix : Option String) (c : Char)
    (w fp fpPair it ipt isa cc : String) :
    (0 ≤ f.funcType → f.funcType ≤ 6 → ¬ (c = 'f' ∧ (f.funcType = 3 ∨ f.funcType = 4)) →
      ∃ shape, categoryShape f.funcType fp fpPair it = some shape ∧
        outputFunctionDeclaration f atrPrefix c w fp fpPair it ipt isa cc =
          some (("IMPORT CONST " ++ shape.1 ++ " " ++
            symbolName (atrPrefix.getD "") f.name c w f.ulp isa ++ "(" ++
            ", ".intercalate shape.2) ++ ")" ++ cc ++ ";\n"))
    ∧ (f.funcType = 7 ∨ f.funcType = 8 →
      (∃ shape, categoryShape f.funcType fp fpPair it = some shape ∧
        outputFunctionDeclaration f atrPrefix c w fp fpPair it ipt isa cc =
          some (("IMPORT CONST " ++ shape.1 ++ " " ++
            symbolName (atrPrefix.getD "") f.name c w f.ulp isa ++ "(" ++
            ", ".intercalate shape.2) ++ ");\n")) ∧
      ∀ cc2 : String,
        outputFunctionDeclaration f atrPrefix c w fp fpPair it ipt isa cc2 =
          outputFunctionDeclaration f atrPrefix c w fp fpPair it ipt isa cc) := by
  constructor
  · intro h0 h6 hskip
    obtain ⟨shape, hshape⟩ := categoryShape_isSome f.funcType fp fpPair it h0 (by omega)
    refine ⟨shape, hshape, ?_⟩
    rw [outputFunctionDeclaration_eq f atrPrefix c w fp fpPair it ipt isa cc shape hshape hskip]
    have h78 : ¬ (f.funcType = 7 ∨ f.funcType = 8) := by omega
    rw [if_neg h78]
  · intro h78
    have hskip : ¬ (c = 'f' ∧ (f.funcType = 3 ∨ f.funcType = 4)) := by
      intro h; omega
    obtain ⟨shape, hshape⟩ := categoryShape_isSome f.funcType fp fpPair it (by omega) (by omega)
    have hline : ∀ cc2 : String,
        outputFunctionDeclaration f atrPrefix c w fp fpPair it ipt isa cc2 =
          some (("IMPORT CONST " ++ shape.1 ++ " " ++
            symbolName (atrPrefix.getD "") f.name c w f.ulp isa ++ "(" ++
            ", ".intercalate shape.2) ++ ");\n") := by
      intro cc2
      rw [outputFunctionDeclaration_eq f atrPrefix c w fp fpPair it ipt isa cc2 shape hshape
        hskip, if_pos h78]
      apply congrArg some
      apply String.ext
      simp [String.data_append]
    exact ⟨⟨shape, hshape, hline cc⟩, fun cc2 => (hline cc2).trans (hline cc).symm⟩

/-- Instance of C14: the descriptor `pow` of category 1 with the calling
convention text ` __attribute__((aarch64_vector_pcs))`, and the descriptor
`getPtr` of category 8 with the same text and with the empty text. -/
theorem C14_calling_convention_witness :
    (∃ shape, categoryShape 1 "vd" "vd2" "vi" = some shape ∧
      outputFunctionDeclaration ⟨"pow", 10, 1, 1⟩ (some "p_") 'd' "2" "vd" "vd2" "vi" "vi2"
          "advsimd" " __attribute__((aarch64_vector_pcs))" =
        some (("IMPORT CONST " ++ shape.1 ++ " " ++
          symbolName "p_" "pow" 'd' "2" 10 "advsimd" ++ "(" ++
          ", ".intercalate shape.2) ++ ")" ++ " __attribute__((aarch64_vector_pcs))" ++ ";\n"))
    ∧ outputFunctionDeclaration ⟨"getPtr", -1, 0, 8⟩ (some "p_") 'd' "2" "vd" "vd2" "vi" "vi2"
          "advsimd" "" =
        outputFunctionDeclaration ⟨"getPtr", -1, 0, 8⟩ (some "p_") 'd' "2" "vd" "vd2" "vi" "vi2"
          "advsimd" " __attribute__((aarch64_vector_pcs))" :=
  ⟨(C14_calling_convention ⟨"pow", 10, 1, 1⟩ (some "p_") 'd' "2" "vd" "vd2" "vi" "vi2"
      "advsimd" " __attribute__((aarch64_vector_pcs))").1 (by decide) (by decide) (by decide),
   ((C14_calling_convention ⟨"getPtr", -1, 0, 8⟩ (some "p_") 'd' "2" "vd" "vd2" "vi" "vi2"
      "advsimd" " __attribute__((aarch64_vector_pcs))").2 (Or.inr rfl)).2 ""⟩

/-! ### Table order -/

theorem empty_append (s : String) : "" ++ s = s := by
  apply String.ext
  simp [String.data_append]

theorem block_of_loop (L : List funcSpec → String → String) (g : funcSpec → String)
    (hL : ∀ fl out, L fl out = out ++ String.join (fl.map g)) :
    (∀ fl, L fl "" = String.join (fl.map fun f => L [f] ""))
    ∧ (∀ A B, L (A ++ B) "" = L A "" ++ L B "")
    ∧ (∀ f, L [f, f] "" = L [f] "" ++ L [f] "") := by
  have h1 : ∀ f, L [f] "" = g f := by
    intro f
    rw [hL]
    apply String.ext
    simp [String.data_append]
  have h0 : ∀ fl, L fl "" = String.join (fl.map g) := by
    intro fl
    rw [hL, empty_append]
  refine ⟨?_, ?_, ?_⟩
  · intro fl
    rw [h0]
    congr 1
    exact List.map_congr_left (fun f _ => (h1 f).symm)
  · intro A B
    rw [h0, h0, h0, List.map_append, join_append]
  · intro f
    rw [h0, h1]
    apply String.ext
    simp [String.data_append]

theorem renameOutput_blocks (fl : List funcSpec) (p wdp wsp isa isaub : String) :
    renameOutput fl p wdp wsp isa isaub =
      "#ifndef DETERMINISTIC\n\n" ++ renameLoop1 fl p wdp isa isaub "" ++ "\n" ++
      renameLoop2 fl p wsp isa isaub "" ++ "\n#else //#ifndef DETERMINISTIC\n\n" ++
      renameLoop3 fl p wdp isa isaub "" ++ "\n" ++
      renameLoop4 fl p wsp isa isaub "" ++ "\n#endif // #ifndef DETERMINISTIC\n" := by
  simp only [renameOutput, renameLoop1_eq, renameLoop2_eq, renameLoop3_eq, renameLoop4_eq,
    empty_append, String.append_assoc]

/-- C16: the rename output is made of four definition blocks (double and
single precision, outside and inside the deterministic build), each produced
by one pass over the table.  Every block is the concatenation, in table order,
of what each descriptor produces alone; hence the block of a table `A ++ B` is
the block of `A` followed by the block of `B`, and a descriptor that occurs
twice produces its definitions twice. -/
theorem C16_table_order (b : Bool) (prog a1 wdp wsp : String) (isaArg : Option String) :
    ∃ pfx isa isaub : String, ∃ blocks : List (List funcSpec → String),
      pfx = (if a1 = "-" then "" else a1) ∧ isa = isaArg.getD "" ∧
      isaub = (if isaArg.isSome then "_" else "") ∧
      blocks = [fun fl => renameLoop1 fl pfx wdp isa isaub "",
                fun fl => renameLoop2 fl pfx wsp isa isaub "",
                fun fl => renameLoop3 fl pfx wdp isa isaub "",
                fun fl => renameLoop4 fl pfx wsp isa isaub ""] ∧
      (∀ fl : List funcSpec,
        (main fl b (prog :: a1 :: wdp :: wsp :: isaArg.toList)).map Outcome.stdout =
          some ("#ifndef DETERMINISTIC\n\n" ++ renameLoop1 fl pfx wdp isa isaub "" ++ "\n" ++
            renameLoop2 fl pfx wsp isa isaub "" ++ "\n#else //#ifndef DETERMINISTIC\n\n" ++
            renameLoop3 fl pfx wdp isa isaub "" ++ "\n" ++
            renameLoop4 fl pfx wsp isa isaub "" ++ "\n#endif // #ifndef DETERMINISTIC\n")) ∧
      ∀ block ∈ blocks,
        (∀ fl : List funcSpec, block fl = String.join (fl.map fun f => block [f])) ∧
        (∀ A B : List funcSpec, block (A ++ B) = block A ++ block B) ∧
        (∀ f : funcSpec, block [f, f] = block [f] ++ block [f]) := by
  refine ⟨_, _, _, _, rfl, rfl, rfl, rfl, ?_, ?_⟩
  · intro fl
    rw [main_rename, Option.map_some', renameOutput_blocks]
  · intro block hblock
    simp only [List.mem_cons, List.mem_singleton, List.not_mem_nil, or_false] at hblock
    rcases hblock with rfl | rfl | rfl | rfl
    · exact block_of_loop _ _ (fun fl out => renameLoop1_eq fl _ _ _ _ out)
    · exact block_of_loop _ _ (fun fl out => renameLoop2_eq fl _ _ _ _ out)
    · exact block_of_loop _ _ (fun fl out => renameLoop3_eq fl _ _ _ _ out)
    · exact block_of_loop _ _ (fun fl out => renameLoop4_eq fl _ _ _ _ out)

/-- Instance of C16: the first block for the table `sin`, `pow`, split after
`sin`, with the parameters `p_`, `2`, `4`, `avx`. -/
theorem C16_table_order_witness :
    renameLoop1 ([⟨"sin", 35, 3, 0⟩] ++ [⟨"pow", 10, 1, 1⟩]) "p_" "2" "avx" "_" "" =
      renameLoop1 [⟨"sin", 35, 3, 0⟩] "p_" "2" "avx" "_" "" ++
      renameLoop1 [⟨"pow", 10, 1, 1⟩] "p_" "2" "avx" "_" "" := by
  obtain ⟨pfx, isa, isaub, blocks, h1, h2, h3, h4, _, h6⟩ :=
    C16_table_order false "mkrename" "p_" "2" "4" (some "avx")
  subst h1 h2 h3 h4
  exact (h6 _ (List.mem_cons_self _ _)).2.1 [⟨"sin", 35, 3, 0⟩] [⟨"pow", 10, 1, 1⟩]

/-! ### Independence of the category -/

theorem renameOutput_funcType (l : List (funcSpec × Int)) (p wdp wsp isa isaub : String) :
    renameOutput (l.map fun q => { q.1 with funcType := q.2 }) p wdp wsp isa isaub =
      renameOutput (l.map Prod.fst) p wdp wsp isa isaub := by
  rw [renameOutput_eq, renameOutput_eq]
  simp only [List.flatMap_map]
  rfl

/-- C19: the rename output does not depend on the categories: a table and the
same table with other `funcType` fields give the same run, byte for byte.  In
particular a descriptor of category 3 or 4, for which
`outputFunctionDeclaration` prints nothing in single precision, still gets its
single-precision definitions in both branches of the rename output. -/
theorem C19_category_irrelevant (b : Bool) (prog a1 wdp wsp : String)
    (isaArg : Option String) :
    (∀ l : List (funcSpec × Int),
      main (l.map fun q => { q.1 with funcType := q.2 }) b
          (prog :: a1 :: wdp :: wsp :: isaArg.toList) =
        main (l.map Prod.fst) b (prog :: a1 :: wdp :: wsp :: isaArg.toList))
    ∧ ∀ (before after : List funcSpec) (f : funcSpec), f.funcType = 3 ∨ f.funcType = 4 →
      (∀ ( atrPrefix : Option String) (w fp fpPair it ipt isa cc : String),
        outputFunctionDeclaration f atrPrefix 'f' w fp fpPair it ipt isa cc = some "") ∧
      ∃ pfx isa isaub : String,
        pfx = (if a1 = "-" then "" else a1) ∧ isa = isaArg.getD "" ∧
        isaub = (if isaArg.isSome then "_" else "") ∧
        (main (before ++ f :: after) b (prog :: a1 :: wdp :: wsp :: isaArg.toList)).map
            Outcome.stdout =
          some ("#ifndef DETERMINISTIC\n\n" ++
            renameLoop1 (before ++ f :: after) pfx wdp isa isaub "" ++ "\n" ++
            (renameLoop2 before pfx wsp isa isaub "" ++
              (aliasLine 'x' (shortToken f "f") (aliasTarget "" f 'f' wsp isaub isa) ++
               aliasLine 'y' (shortToken f "f") (aliasTarget pfx f 'f' wsp isaub isa)) ++
              renameLoop2 after pfx wsp isa isaub "") ++
            "\n#else //#ifndef DETERMINISTIC\n\n" ++
            renameLoop3 (before ++ f :: after) pfx wdp isa isaub "" ++ "\n" ++
            (renameLoop4 before pfx wsp isa isaub "" ++
              aliasLine 'x' (shortToken f "f") (aliasTarget pfx f 'f' wsp isaub isa) ++
              renameLoop4 after pfx wsp isa isaub "") ++
            "\n#endif // #ifndef DETERMINISTIC\n") := by
  constructor
  · intro l
    rw [main_rename, main_rename, renameOutput_funcType]
  · intro before after f h34
    refine ⟨?_, _, _, _, rfl, rfl, rfl, ?_⟩
    · intro atrPrefix w fp fpPair it ipt isa cc
      simp only [outputFunctionDeclaration, h34, and_self, if_true]
    · rw [main_rename, Option.map_some', renameOutput_blocks]
      apply congrArg some
      have e2 : ∀ p w i u, renameLoop2 (before ++ f :: after) p w i u "" =
          renameLoop2 before p w i u "" ++
            (aliasLine 'x' (shortToken f "f") (aliasTarget "" f 'f' w u i) ++
             aliasLine 'y' (shortToken f "f") (aliasTarget p f 'f' w u i)) ++
            renameLoop2 after p w i u "" := by
        intro p w i u
        simp only [renameLoop2_eq, empty_append, List.map_append, List.map_cons, join_append,
          join_cons, String.append_assoc]
      have e4 : ∀ p w i u, renameLoop4 (before ++ f :: after) p w i u "" =
          renameLoop4 before p w i u "" ++
            aliasLine 'x' (shortToken f "f") (aliasTarget p f 'f' w u i) ++
            renameLoop4 after p w i u "" := by
        intro p w i u
        simp only [renameLoop4_eq, empty_append, List.map_append, List.map_cons, join_append,
          join_cons, String.append_assoc]
      rw [e2, e4]

/-- Instance of C19: the table `sin`, `ldexp` (category 3), `pow` at the
descriptor `ldexp`, with the parameters `p_`, `2`, `4`. -/
theorem C19_category_irrelevant_witness :
    outputFunctionDeclaration ⟨"ldexp", -1, 0, 3⟩ (some "p_") 'f' "4" "vf" "vf2" "vi" "vi2"
      "" "" = some "" :=
  ((C19_category_irrelevant false "mkrename" "p_" "2" "4" none).2
    [⟨"sin", 35, 3, 0⟩] [⟨"pow", 10, 1, 1⟩] ⟨"ldexp", -1, 0, 3⟩ (Or.inl rfl)).1
    (some "p_") "4" "vf" "vf2" "vi" "vi2" "" ""

/-! ### Mode selection -/

theorem main_eq_dispatch (fl : List funcSpec) (b : Bool) (argv : List String) :
    main fl b argv =
      match selectMode argv.length with
      | Mode.usage => usageBranch argv
      | Mode.rename => renameBranch fl argv
      | Mode.declaration => declarationBranch fl b argv := by
  unfold main selectMode
  by_cases h4 : argv.length < 4
  · simp only [h4, if_true]
    rfl
  · by_cases h45 : argv.length = 4 ∨ argv.length = 5
    · simp only [h4, h45, if_true, if_false]
      rfl
    · simp only [h4, h45, if_false]
      rfl

theorem declarationOutput_begins (fl : List funcSpec) (b : Bool)
    (p wdp wsp vd vf vi arch isa : String)
    (h : ∀ f ∈ fl, 0 ≤ f.funcType ∧ f.funcType ≤ 8) :
    ∃ rest, declarationOutput fl b p wdp wsp vd vf vi arch isa =
      some ("#ifdef " ++ arch ++ "\n" ++ rest) := by
  by_cases hvd : vd = "-"
  · subst hvd
    exact ⟨"#endif\n", declarationOutput_dash fl b p wdp wsp vf vi arch isa⟩
  · rw [declarationOutput_eq fl b p wdp wsp vd vf vi arch isa h hvd]
    simp only [String.append_assoc]
    exact ⟨_, rfl⟩

/-- C11: which branch `main` takes is decided by the number of parameters
alone (`selectMode` of `argc`).  With 3 or 4 parameters it is the rename
branch: the output is the rename tables, beginning with the line `#ifndef
DETERMINISTIC`, made with the 4th parameter as ISA label when it is present
and the empty label otherwise.  With 8 or 9 parameters (over a table of
categories 0..8) it is the declaration branch: the output is the declaration
block, beginning with the line `#ifdef` and the 8th parameter, made with the
9th parameter as ISA label when it is present and the empty label otherwise. -/
theorem C11_mode_selection (fl : List funcSpec) (b : Bool)
    (prog a1 wdp wsp vd vf vi vi2 arch : String) (isaArg : Option String) :
    (∀ argv : List String,
      main fl b argv =
        match selectMode argv.length with
        | Mode.usage => usageBranch argv
        | Mode.rename => renameBranch fl argv
        | Mode.declaration => declarationBranch fl b argv)
    ∧ (selectMode (prog :: a1 :: wdp :: wsp :: isaArg.toList).length = Mode.rename ∧
        main fl b (prog :: a1 :: wdp :: wsp :: isaArg.toList) =
          some { stdout := renameOutput fl (if a1 = "-" then "" else a1) wdp wsp
                   (isaArg.getD "") (if isaArg.isSome then "_" else ""),
                 stderr := "", status := 0 } ∧
        ∃ rest, renameOutput fl (if a1 = "-" then "" else a1) wdp wsp
            (isaArg.getD "") (if isaArg.isSome then "_" else "") =
          "#ifndef DETERMINISTIC\n" ++ rest)
    ∧ (selectMode (prog :: a1 :: wdp :: wsp :: vd :: vf :: vi :: vi2 :: arch ::
          isaArg.toList).length = Mode.declaration ∧
        ((∀ f ∈ fl, 0 ≤ f.funcType ∧ f.funcType ≤ 8) →
          ∃ rest,
            declarationOutput fl b (if a1 = "-" then "" else a1) wdp wsp vd vf vi arch
              (isaArg.getD "") = some ("#ifdef " ++ arch ++ "\n" ++ rest) ∧
            main fl b (prog :: a1 :: wdp :: wsp :: vd :: vf :: vi :: vi2 :: arch ::
                isaArg.toList) =
              some { stdout := "#ifdef " ++ arch ++ "\n" ++ rest, stderr := "", status := 0 })) := by
  refine ⟨main_eq_dispatch fl b, ⟨?_, main_rename fl b prog a1 wdp wsp isaArg, ?_⟩, ?_, ?_⟩
  · cases isaArg <;> rfl
  · rw [renameOutput_eq]
    have e : "#ifndef DETERMINISTIC\n\n" = "#ifndef DETERMINISTIC\n" ++ "\n" := by decide
    rw [e]
    simp only [String.append_assoc]
    exact ⟨_, rfl⟩
  · cases isaArg <;> rfl
  · intro htable
    obtain ⟨rest, hrest⟩ := declarationOutput_begins fl b (if a1 = "-" then "" else a1) wdp wsp
      vd vf vi arch (isaArg.getD "") htable
    refine ⟨rest, hrest, ?_⟩
    rw [main_declaration, hrest, Option.map_some']

/-- Instance of C11: a run with the 8 parameters `p_`, `2`, `4`, `vd`, `vf`,
`vi`, `vi2`, `ARCH` over the table holding `sin` of category 0. -/
theorem C11_mode_selection_witness :
    ∃ rest,
      declarationOutput [⟨"sin", 10, 1, 0⟩] false (if "p_" = "-" then "" else "p_") "2" "4"
        "vd" "vf" "vi" "ARCH" ((none : Option String).getD "") =
        some ("#ifdef " ++ "ARCH" ++ "\n" ++ rest) ∧
      main [⟨"sin", 10, 1, 0⟩] false
          ("mkrename" :: "p_" :: "2" :: "4" :: "vd" :: "vf" :: "vi" :: "vi2" :: "ARCH" ::
            (none : Option String).toList) =
        some { stdout := "#ifdef " ++ "ARCH" ++ "\n" ++ rest, stderr := "", status := 0 } :=
  (C11_mode_selection [⟨"sin", 10, 1, 0⟩] false "mkrename" "p_" "2" "4" "vd" "vf" "vi" "vi2"
    "ARCH" none).2.2.2 (by decide)

/-- C20: with 8 or 9 parameters the declaration branch is taken and every
`argv` slot of a parameter exists, so over a table of categories 0..8 the run
has an outcome.  With 5, 6 or 7 parameters the declaration branch is taken as
well (it is neither the usage branch nor the rename branch), and the run has
no outcome for any table: the branch reads `argv[1]` to `argv[8]`, and the
slot after the last parameter, at an index that is at most 8, holds no
parameter, nor does `argv[8]`. -/
theorem C20_missing_parameters (fl : List funcSpec) (b : Bool) (prog : String)
    (params : List String) :
    (params.length = 8 ∨ params.length = 9 →
      selectMode (prog :: params).length = Mode.declaration ∧
      (∀ i, i ≤ params.length → ((prog :: params)[i]?).isSome = true) ∧
      ((∀ f ∈ fl, 0 ≤ f.funcType ∧ f.funcType ≤ 8) →
        (main fl b (prog :: params)).isSome = true))
    ∧ (params.length = 5 ∨ params.length = 6 ∨ params.length = 7 →
      selectMode (prog :: params).length = Mode.declaration ∧
      main fl b (prog :: params) = declarationBranch fl b (prog :: params) ∧
      params.length + 1 ≤ 8 ∧
      (prog :: params)[params.length + 1]? = none ∧
      (prog :: params)[8]? = none ∧
      declarationBranch fl b (prog :: params) = none ∧
      main fl b (prog :: params) = none) := by
  constructor
  · intro h89
    refine ⟨?_, ?_, ?_⟩
    · rcases h89 with h | h <;> simp [selectMode, h]
    · intro i hi
      rw [Option.isSome_iff_exists]
      exact ⟨_, List.getElem?_eq_getElem (by simp; omega)⟩
    · intro htable
      rcases params with _ | ⟨a1, _ | ⟨wdp, _ | ⟨wsp, _ | ⟨vd, _ | ⟨vf, _ | ⟨vi, _ | ⟨vi2,
        _ | ⟨arch, _ | ⟨i, _ | ⟨j, rest⟩⟩⟩⟩⟩⟩⟩⟩⟩⟩ <;> try (simp at h89; done)
      · obtain ⟨o, ho, _⟩ := declarationOutput_some fl b (if a1 = "-" then "" else a1) wdp wsp
          vd vf vi arch "" htable
        have e := main_declaration fl b prog a1 wdp wsp vd vf vi vi2 arch none
        simp only [Option.toList, Option.getD, ho, Option.map_some'] at e
        rw [e]; rfl
      · obtain ⟨o, ho, _⟩ := declarationOutput_some fl b (if a1 = "-" then "" else a1) wdp wsp
          vd vf vi arch i htable
        have e := main_declaration fl b prog a1 wdp wsp vd vf vi vi2 arch (some i)
        simp only [Option.toList, Option.getD, ho, Option.map_some'] at e
        rw [e]; rfl
  · intro h567
    have hmode : selectMode (prog :: params).length = Mode.declaration := by
      rcases h567 with h | h | h <;> simp [selectMode, h]
    have hmain : main fl b (prog :: params) = none := by
      rcases params with _ | ⟨a1, _ | ⟨wdp, _ | ⟨wsp, _ | ⟨x1, _ | ⟨x2, rest⟩⟩⟩⟩⟩ <;>
        try (simp at h567; done)
      exact main_missing fl b prog a1 wdp wsp x1 x2 rest
        (by simp only [List.length_cons] at h567; omega)
    have hdisp0 := main_eq_dispatch fl b (prog :: params)
    rw [hmode] at hdisp0
    have hdisp : main fl b (prog :: params) = declarationBranch fl b (prog :: params) := hdisp0
    refine ⟨hmode, hdisp, by omega, ?_, ?_, ?_, hmain⟩
    · exact List.getElem?_eq_none (by simp)
    · exact List.getElem?_eq_none (by simp; omega)
    · rw [← hdisp]; exact hmain

/-- Instance of C20: a run with 8 parameters over the table holding `sin` of
category 0, and a run with the 6 parameters `p_`, `2`, `4`, `vd`, `vf`, `vi`. -/
theorem C20_missing_parameters_witness :
    (main [⟨"sin", 10, 1, 0⟩] false
        ("mkrename" :: ["p_", "2", "4", "vd", "vf", "vi", "vi2", "ARCH"])).isSome = true
    ∧ selectMode ("mkrename" :: ["p_", "2", "4", "vd", "vf", "vi"]).length = Mode.declaration
    ∧ ("mkrename" :: ["p_", "2", "4", "vd", "vf", "vi"])[8]? = none
    ∧ main [⟨"sin", 10, 1, 0⟩] false ("mkrename" :: ["p_", "2", "4", "vd", "vf", "vi"]) = none :=
  ⟨((C20_missing_parameters [⟨"sin", 10, 1, 0⟩] false "mkrename"
      ["p_", "2", "4", "vd", "vf", "vi", "vi2", "ARCH"]).1 (by decide)).2.2 (by decide),
   ((C20_missing_parameters [⟨"sin", 10, 1, 0⟩] false "mkrename"
      ["p_", "2", "4", "vd", "vf", "vi"]).2 (by decide)).1,
   ((C20_missing_parameters [⟨"sin", 10, 1, 0⟩] false "mkrename"
      ["p_", "2", "4", "vd", "vf", "vi"]).2 (by decide)).2.2.2.2.1,
   ((C20_missing_parameters [⟨"sin", 10, 1, 0⟩] false "mkrename"
      ["p_", "2", "4", "vd", "vf", "vi"]).2 (by decide)).2.2.2.2.2.2⟩

/-- C12, counterexample: with the ISA label `sve` and an architecture guard
other than `__ARM_FEATURE_SVE` the prototype names use the width `x`, but both
pair types are declared as two-field structures; no native scalable pair type
occurs in the output. -/
theorem C12_counterexample :
    ∃ out, main [⟨"sin", 10, 1, 0⟩] false
        ["mkrename", "p_", "2", "4", "vd", "vf", "vi", "vi2", "ARCH", "sve"] = some out ∧
      out.stdout =
        "#ifdef ARCH\n" ++
        "\n" ++
        "#ifndef Sleef_vd_2_DEFINED\n" ++
        "typedef struct \x7b\n" ++
        "  vd x, y;\n" ++
        "\x7d Sleef_vd_2;\n" ++
        "#define Sleef_vd_2_DEFINED\n" ++
        "#endif\n" ++
        "\n" ++
        "IMPORT CONST vd Sleef_sindx_u10sve(vd);\n" ++
        "IMPORT CONST vd Sleef_p_sindx_u10sve(vd);\n" ++
        "\n" ++
        "#ifndef Sleef_vf_2_DEFINED\n" ++
        "typedef struct \x7b\n" ++
        "  vf x, y;\n" ++
        "\x7d Sleef_vf_2;\n" ++
        "#define Sleef_vf_2_DEFINED\n" ++
        "#endif\n" ++
        "\n" ++
        "IMPORT CONST vf Sleef_sinfx_u10sve(vf);\n" ++
        "IMPORT CONST vf Sleef_p_sinfx_u10sve(vf);\n" ++
        "#endif\n" ∧
      ¬ ("svfloat".data <:+: out.stdout.data) :=
  ⟨_, rfl, rfl, by decide⟩

/-- C12, amended: in declaration mode (8 or 9 parameters, a double type name
other than `-`, a table of categories 0..8) the output is, for every ISA
label, the `#ifdef` line, the two guarded typedefs and the two prototype
blocks.  Each typedef is `typedef svfloat64x2_t <pair>;` (`svfloat32x2_t` for
single precision) exactly when the architecture guard is `__ARM_FEATURE_SVE`,
and the two-field structure otherwise, whatever the ISA label is.  The
prototype lines are made with the two width parameters unless the ISA label is
`sve`; with the ISA label `sve` both widths are `x`, so every prototype name is
`Sleef_`, prefix, name, letter, `x`, the accuracy code or an underscore,
`sve`. -/
theorem C12_scalable (fl : List funcSpec) (b : Bool)
    (prog a1 wdp wsp vd vf vi vi2 arch : String) (isaArg : Option String)
    (htable : ∀ f ∈ fl, 0 ≤ f.funcType ∧ f.funcType ≤ 8) (hvd : vd ≠ "-") :
    ∃ pfx isa wd ws cc typedefD typedefS : String,
      pfx = (if a1 = "-" then "" else a1) ∧ isa = isaArg.getD "" ∧
      wd = (if isa = "sve" then "x" else wdp) ∧ ws = (if isa = "sve" then "x" else wsp) ∧
      cc = (if b = true ∧ isa = "advsimd" then " __attribute__((aarch64_vector_pcs))" else "") ∧
      typedefD = (if arch = "__ARM_FEATURE_SVE" then
          "typedef svfloat64x2_t " ++ getPairTypeName vd ++ ";\n"
        else "typedef struct \x7b\n" ++ "  " ++ vd ++ " x, y;\n" ++
          "\x7d " ++ getPairTypeName vd ++ ";\n") ∧
      typedefS = (if arch = "__ARM_FEATURE_SVE" then
          "typedef svfloat32x2_t " ++ getPairTypeName vf ++ ";\n"
        else "typedef struct \x7b\n" ++ "  " ++ vf ++ " x, y;\n" ++
          "\x7d " ++ getPairTypeName vf ++ ";\n") ∧
      (main fl b (prog :: a1 :: wdp :: wsp :: vd :: vf :: vi :: vi2 :: arch ::
          isaArg.toList)).map Outcome.stdout =
        some ("#ifdef " ++ arch ++ "\n" ++ "\n" ++
          "#ifndef " ++ getPairTypeName vd ++ "_DEFINED\n" ++ typedefD ++
          "#define " ++ getPairTypeName vd ++ "_DEFINED\n" ++ "#endif\n" ++ "\n" ++
          String.join (fl.map fun f =>
            prototypeText f pfx 'd' wd vd (getPairTypeName vd) vi isa cc) ++
          "\n" ++
          "#ifndef " ++ getPairTypeName vf ++ "_DEFINED\n" ++ typedefS ++
          "#define " ++ getPairTypeName vf ++ "_DEFINED\n" ++ "#endif\n" ++ "\n" ++
          String.join (fl.map fun f =>
            prototypeText f pfx 'f' ws vf (getPairTypeName vf) vi isa cc) ++
          "#endif\n") ∧
      (isaArg = some "sve" →
        wd = "x" ∧ ws = "x" ∧ cc = "" ∧
        ∀ (f : funcSpec) (q : String) (c : Char),
          symbolName q f.name c "x" f.ulp isa =
            "Sleef_" ++ q ++ f.name ++ String.singleton c ++ "x" ++
              (if f.ulp ≥ 0 then "_u" ++ zeroPad2 f.ulp.toNat else "_") ++ "sve") := by
  refine ⟨_, _, _, _, _, _, _, rfl, rfl, rfl, rfl, rfl, rfl, rfl, ?_, ?_⟩
  · rw [main_declaration]
    simp only [declarationOutput, hvd, ne_eq, not_false_eq_true, if_true,
      declarationLoop_eq _ _ _ _ _ _ _ _ _ _ _ htable, Option.bind_eq_bind, Option.some_bind,
      Option.pure_def, Option.map_some']
    apply congrArg some
    unfold pairTypedef
    by_cases harch : arch = "__ARM_FEATURE_SVE"
    · simp only [harch, if_true]
      apply String.ext
      simp [String.data_append]
    · simp only [harch, if_false]
      apply String.ext
      simp [String.data_append]
  · intro hsve
    subst hsve
    have hcc : ¬ (b = true ∧ (some "sve").getD "" = "advsimd") :=
      fun h => absurd h.2 (by decide)
    refine ⟨by simp, by simp, by rw [if_neg hcc], ?_⟩
    intro f q c
    have hs : ¬ ("sve" = "") := by decide
    simp only [symbolName, Option.getD, hs, if_false]

/-- Instance of C12 as amended: the table holding `sin` of category 0 with the
type names `vd`, `vf`, `vi`, the architecture guard `__ARM_FEATURE_SVE` and the
ISA label `sve`. -/
theorem C12_scalable_witness :
    ∃ pfx isa wd ws cc typedefD typedefS : String,
      pfx = (if "p_" = "-" then "" else "p_") ∧ isa = (some "sve").getD "" ∧
      typedefD = (if "__ARM_FEATURE_SVE" = "__ARM_FEATURE_SVE" then
          "typedef svfloat64x2_t " ++ getPairTypeName "vd" ++ ";\n"
        else "typedef struct \x7b\n" ++ "  " ++ "vd" ++ " x, y;\n" ++
          "\x7d " ++ getPairTypeName "vd" ++ ";\n") ∧
      typedefS = (if "__ARM_FEATURE_SVE" = "__ARM_FEATURE_SVE" then
          "typedef svfloat32x2_t " ++ getPairTypeName "vf" ++ ";\n"
        else "typedef struct \x7b\n" ++ "  " ++ "vf" ++ " x, y;\n" ++
          "\x7d " ++ getPairTypeName "vf" ++ ";\n") ∧
      (main [⟨"sin", 10, 1, 0⟩] false ("mkrename" :: "p_" :: "2" :: "4" :: "vd" :: "vf" ::
          "vi" :: "vi2" :: "__ARM_FEATURE_SVE" :: (some "sve").toList)).map Outcome.stdout =
        some ("#ifdef " ++ "__ARM_FEATURE_SVE" ++ "\n" ++ "\n" ++
          "#ifndef " ++ getPairTypeName "vd" ++ "_DEFINED\n" ++ typedefD ++
          "#define " ++ getPairTypeName "vd" ++ "_DEFINED\n" ++ "#endif\n" ++ "\n" ++
          String.join ([⟨"sin", 10, 1, 0⟩].map fun f =>
            prototypeText f pfx 'd' wd "vd" (getPairTypeName "vd") "vi" isa cc) ++
          "\n" ++
          "#ifndef " ++ getPairTypeName "vf" ++ "_DEFINED\n" ++ typedefS ++
          "#define " ++ getPairTypeName "vf" ++ "_DEFINED\n" ++ "#endif\n" ++ "\n" ++
          String.join ([⟨"sin", 10, 1, 0⟩].map fun f =>
            prototypeText f pfx 'f' ws "vf" (getPairTypeName "vf") "vi" isa cc) ++
          "#endif\n") ∧
      wd = "x" ∧ ws = "x" ∧ cc = "" := by
  obtain ⟨pfx, isa, wd, ws, cc, td, ts, h1, h2, _, _, _, h6, h7, h8, h9⟩ :=
    C12_scalable [⟨"sin", 10, 1, 0⟩] false "mkrename" "p_" "2" "4"
      "vd" "vf" "vi" "vi2" "__ARM_FEATURE_SVE" (some "sve") (by decide) (by decide)
  obtain ⟨h10, h11, h12, _⟩ := h9 rfl
  exact ⟨pfx, isa, wd, ws, cc, td, ts, h1, h2, h6, h7, h8, h10, h11, h12⟩

/-! ### Rename targets and prototype names -/

theorem aliasTarget_eq_symbolName (pfx : String) (f : funcSpec) (c : Char) (w : String)
    (isaArg : Option String) (h : isaArg ≠ some "") :
    aliasTarget pfx f c w (if isaArg.isSome then "_" else "") (isaArg.getD "") =
      symbolName pfx f.name c w f.ulp (isaArg.getD "") := by
  unfold aliasTarget symbolName
  by_cases hu : f.ulp ≥ 0
  · simp only [hu, if_true]
  · cases isaArg with
    | none => simp [hu]
    | some i =>
      have hi : ¬ i = "" := fun e => h (by rw [e])
      simp [hu, hi]

/-- C18, counterexample: for the descriptor `ldexp` of category 3 in single
precision rename mode defines `yldexpf` as `Sleef_p_ldexpf4`, while
`outputFunctionDeclaration` prints nothing for the same descriptor, prefix,
letter, width and ISA label: there is no printed symbol name for the target
to agree with. -/
theorem C18_counterexample :
    renameLoop2 [⟨"ldexp", -1, 0, 3⟩] "p_" "4" "" "" "" =
      "#define xldexpf Sleef_ldexpf4\n" ++ "#define yldexpf Sleef_p_ldexpf4\n"
    ∧ renameLoop4 [⟨"ldexp", -1, 0, 3⟩] "p_" "4" "" "" "" =
      "#define xldexpf Sleef_p_ldexpf4\n"
    ∧ outputFunctionDeclaration ⟨"ldexp", -1, 0, 3⟩ (some "p_") 'f' "4" "vf" "vf2" "vi" "vi2"
        "" "" = some "" := by
  refine ⟨by rfl, by rfl, by rfl⟩

/-- C18, amended: for a descriptor of category 0..8, a prefix, a width label
and an ISA label that is omitted or not empty, the target of the tagged alias
of rename mode (the `y` definition outside the deterministic build, the `x`
definition inside it) is the symbol name of the spec (the untagged `x`
definition has the same name without the prefix), and whenever
`outputFunctionDeclaration` prints a line for the same descriptor, prefix,
letter, width and ISA label (always in double precision, in single precision
unless the category is 3 or 4) that line carries the same name.  With an
explicit empty ISA parameter and a negative `ulp` the rename target ends in an
underscore that the prototype name does not have. -/
theorem C18_names_agree (f : funcSpec) (pfx wdp wsp : String) (isaArg : Option String)
    (h0 : 0 ≤ f.funcType) (h8 : f.funcType ≤ 8) :
    (isaArg ≠ some "" →
      ∃ isa isaub nameD nameF : String,
        isa = isaArg.getD "" ∧ isaub = (if isaArg.isSome then "_" else "") ∧
        nameD = symbolName pfx f.name 'd' wdp f.ulp isa ∧
        nameF = symbolName pfx f.name 'f' wsp f.ulp isa ∧
        renameLoop1 [f] pfx wdp isa isaub "" =
          aliasLine 'x' (shortToken f "") (symbolName "" f.name 'd' wdp f.ulp isa) ++
          aliasLine 'y' (shortToken f "") nameD ∧
        renameLoop3 [f] pfx wdp isa isaub "" = aliasLine 'x' (shortToken f "") nameD ∧
        renameLoop2 [f] pfx wsp isa isaub "" =
          aliasLine 'x' (shortToken f "f") (symbolName "" f.name 'f' wsp f.ulp isa) ++
          aliasLine 'y' (shortToken f "f") nameF ∧
        renameLoop4 [f] pfx wsp isa isaub "" = aliasLine 'x' (shortToken f "f") nameF ∧
        (∀ fp fpPair it ipt cc : String, ∃ rt tail,
          outputFunctionDeclaration f (some pfx) 'd' wdp fp fpPair it ipt isa cc =
            some ("IMPORT CONST " ++ rt ++ " " ++ nameD ++ "(" ++ tail)) ∧
        (¬ (f.funcType = 3 ∨ f.funcType = 4) →
          ∀ fp fpPair it ipt cc : String, ∃ rt tail,
            outputFunctionDeclaration f (some pfx) 'f' wsp fp fpPair it ipt isa cc =
              some ("IMPORT CONST " ++ rt ++ " " ++ nameF ++ "(" ++ tail)))
    ∧ (f.ulp < 0 →
        renameLoop3 [f] pfx wdp "" "_" "" =
          aliasLine 'x' (shortToken f "") (symbolName pfx f.name 'd' wdp f.ulp "" ++ "_") ∧
        renameLoop4 [f] pfx wsp "" "_" "" =
          aliasLine 'x' (shortToken f "f") (symbolName pfx f.name 'f' wsp f.ulp "" ++ "_") ∧
        symbolName pfx f.name 'd' wdp f.ulp "" ++ "_" ≠ symbolName pfx f.name 'd' wdp f.ulp "" ∧
        symbolName pfx f.name 'f' wsp f.ulp "" ++ "_" ≠ symbolName pfx f.name 'f' wsp f.ulp "") := by
  have hline : ∀ (c : Char) (w fp fpPair it ipt isa cc : String),
      ¬ (c = 'f' ∧ (f.funcType = 3 ∨ f.funcType = 4)) → ∃ rt tail,
        outputFunctionDeclaration f (some pfx) c w fp fpPair it ipt isa cc =
          some ("IMPORT CONST " ++ rt ++ " " ++ symbolName pfx f.name c w f.ulp isa ++ "(" ++
            tail) := by
    intro c w fp fpPair it ipt isa cc hskip
    obtain ⟨shape, hshape⟩ := categoryShape_isSome f.funcType fp fpPair it h0 h8
    refine ⟨shape.1, ", ".intercalate shape.2 ++ ")" ++
      (if f.funcType = 7 ∨ f.funcType = 8 then "" else cc) ++ ";\n", ?_⟩
    rw [outputFunctionDeclaration_eq f (some pfx) c w fp fpPair it ipt isa cc shape hshape hskip]
    simp only [Option.getD, String.append_assoc]
  have hl1 : ∀ w i u, renameLoop1 [f] pfx w i u "" =
      aliasLine 'x' (shortToken f "") (aliasTarget "" f 'd' w u i) ++
        aliasLine 'y' (shortToken f "") (aliasTarget pfx f 'd' w u i) := by
    intro w i u
    simp only [renameLoop1_eq, empty_append, List.map_cons, List.map_nil, join_cons]
    apply String.ext
    simp [String.data_append]
  have hl2 : ∀ w i u, renameLoop2 [f] pfx w i u "" =
      aliasLine 'x' (shortToken f "f") (aliasTarget "" f 'f' w u i) ++
        aliasLine 'y' (shortToken f "f") (aliasTarget pfx f 'f' w u i) := by
    intro w i u
    simp only [renameLoop2_eq, empty_append, List.map_cons, List.map_nil, join_cons]
    apply String.ext
    simp [String.data_append]
  have hl3 : ∀ w i u, renameLoop3 [f] pfx w i u "" =
      aliasLine 'x' (shortToken f "") (aliasTarget pfx f 'd' w u i) := by
    intro w i u
    simp only [renameLoop3_eq, empty_append, List.map_cons, List.map_nil, join_cons]
    apply String.ext
    simp [String.data_append]
  have hl4 : ∀ w i u, renameLoop4 [f] pfx w i u "" =
      aliasLine 'x' (shortToken f "f") (aliasTarget pfx f 'f' w u i) := by
    intro w i u
    simp only [renameLoop4_eq, empty_append, List.map_cons, List.map_nil, join_cons]
    apply String.ext
    simp [String.data_append]
  constructor
  · intro hisa
    refine ⟨_, _, _, _, rfl, rfl, rfl, rfl, ?_, ?_, ?_, ?_, ?_, ?_⟩
    · rw [hl1, aliasTarget_eq_symbolName pfx f 'd' wdp isaArg hisa,
        aliasTarget_eq_symbolName "" f 'd' wdp isaArg hisa]
    · rw [hl3, aliasTarget_eq_symbolName pfx f 'd' wdp isaArg hisa]
    · rw [hl2, aliasTarget_eq_symbolName pfx f 'f' wsp isaArg hisa,
        aliasTarget_eq_symbolName "" f 'f' wsp isaArg hisa]
    · rw [hl4, aliasTarget_eq_symbolName pfx f 'f' wsp isaArg hisa]
    · intro fp fpPair it ipt cc
      exact hline 'd' wdp fp fpPair it ipt _ cc (fun h => absurd h.1 (by decide))
    · intro h34 fp fpPair it ipt cc
      exact hline 'f' wsp fp fpPair it ipt _ cc (fun h => h34 h.2)
  · intro hu
    have hu' : ¬ f.ulp ≥ 0 := by omega
    have htarget : ∀ (c : Char) (w : String),
        aliasTarget pfx f c w "_" "" = symbolName pfx f.name c w f.ulp "" ++ "_" := by
      intro c w
      simp only [aliasTarget, symbolName, hu', if_false, if_true]
      apply String.ext
      simp [String.data_append]
    have hne : ∀ s : String, s ++ "_" ≠ s := by
      intro s e
      have hl := congrArg String.length e
      rw [String.length_append] at hl
      have : "_".length = 1 := by decide
      omega
    exact ⟨by rw [hl3, htarget], by rw [hl4, htarget], hne _, hne _⟩

/-- Instance of C18 as amended: the descriptor `pow` of category 1 with the
ISA label `avx`, and the descriptor `getInt` without accuracy. -/
theorem C18_names_agree_witness :
    (∃ isa isaub nameD nameF : String,
        isa = (some "avx").getD "" ∧ isaub = (if (some "avx").isSome then "_" else "") ∧
        nameD = symbolName "p_" "pow" 'd' "2" 10 isa ∧
        nameF = symbolName "p_" "pow" 'f' "4" 10 isa ∧
        renameLoop3 [⟨"pow", 10, 1, 1⟩] "p_" "2" isa isaub "" =
          aliasLine 'x' (shortToken ⟨"pow", 10, 1, 1⟩ "") nameD ∧
        (∀ fp fpPair it ipt cc : String, ∃ rt tail,
          outputFunctionDeclaration ⟨"pow", 10, 1, 1⟩ (some "p_") 'f' "4" fp fpPair it ipt
              isa cc =
            some ("IMPORT CONST " ++ rt ++ " " ++ nameF ++ "(" ++ tail)))
    ∧ renameLoop3 [⟨"getInt", -1, 0, 7⟩] "p_" "2" "" "_" "" =
        aliasLine 'x' (shortToken ⟨"getInt", -1, 0, 7⟩ "")
          (symbolName "p_" "getInt" 'd' "2" (-1) "" ++ "_") := by
  obtain ⟨isa, isaub, nameD, nameF, h1, h2, h3, h4, _, h6, _, _, _, h10⟩ :=
    (C18_names_agree ⟨"pow", 10, 1, 1⟩ "p_" "2" "4" (some "avx") (by decide) (by decide)).1
      (by decide)
  exact ⟨⟨isa, isaub, nameD, nameF, h1, h2, h3, h4, h6, h10 (by decide)⟩,
    ((C18_names_agree ⟨"getInt", -1, 0, 7⟩ "p_" "2" "4" none (by decide) (by decide)).2
      (by decide)).1⟩

/-! ### The declaration block as lines -/

theorem unlines_nil : unlines [] = "" := rfl

theorem unlines_cons (l : String) (ls : List String) :
    unlines (l :: ls) = l ++ "\n" ++ unlines ls := by
  simp only [unlines, List.map_cons, join_cons]

theorem unlines_append (l₁ l₂ : List String) : unlines (l₁ ++ l₂) = unlines l₁ ++ unlines l₂ := by
  simp only [unlines, List.map_append, join_append]

theorem append_empty (s : String) : s ++ "" = s := by
  apply String.ext
  simp [String.data_append]

theorem pairTypedef_eq_unlines (arch native scalar pair : String) :
    pairTypedef arch native scalar pair =
      unlines (guardedTypedefLines arch native scalar pair ++ [""]) := by
  unfold pairTypedef guardedTypedefLines
  split <;>
    (simp only [unlines_append, unlines_cons, unlines_nil, List.singleton_append,
      List.cons_append, List.nil_append]
     apply String.ext
     simp [String.data_append])

theorem prototypeText_eq_unlines (f : funcSpec) (pfx : String) (c : Char)
    (w fp fpPair it isa cc : String) (h0 : 0 ≤ f.funcType) (h8 : f.funcType ≤ 8) :
    prototypeText f pfx c w fp fpPair it isa cc =
      unlines (prototypeLines f pfx c w fp fpPair it isa cc) := by
  obtain ⟨shape, hshape⟩ := categoryShape_isSome f.funcType fp fpPair it h0 h8
  unfold prototypeText prototypeLines
  split
  · rfl
  · simp only [prototypeLine, hshape, unlines_cons, unlines_nil]
    apply String.ext
    simp [String.data_append]

theorem join_prototypeText (fl : List funcSpec) (pfx : String) (c : Char)
    (w fp fpPair it isa cc : String) (h : ∀ f ∈ fl, 0 ≤ f.funcType ∧ f.funcType ≤ 8) :
    String.join (fl.map fun f => prototypeText f pfx c w fp fpPair it isa cc) =
      unlines (fl.flatMap fun f => prototypeLines f pfx c w fp fpPair it isa cc) := by
  induction fl with
  | nil => rfl
  | cons a t ih =>
    have ha := h a (by simp)
    rw [List.map_cons, join_cons, List.flatMap_cons, unlines_append,
      ih (fun f hf => h f (by simp [hf])), prototypeText_eq_unlines _ _ _ _ _ _ _ _ _ ha.1 ha.2]

theorem not_prefix_append (q p r : List Char) (h1 : ¬ q <+: p) (h2 : ¬ p <+: q) :
    ¬ q <+: p ++ r := by
  intro h
  rcases List.prefix_or_prefix_of_prefix h (List.prefix_append p r) with h' | h'
  · exact h1 h'
  · exact h2 h'

theorem not_ifdef_append (p r : String) (h1 : ¬ "#ifdef".data <+: p.data)
    (h2 : ¬ p.data <+: "#ifdef".data) : ¬ "#ifdef".data <+: (p ++ r).data := by
  rw [String.data_append]
  exact not_prefix_append _ _ _ h1 h2

theorem guardedTypedefLines_not_ifdef (arch native scalar pair : String) :
    ∀ l ∈ guardedTypedefLines arch native scalar pair, ¬ "#ifdef".data <+: l.data := by
  have e1 : ∀ r : String, ¬ "#ifdef".data <+: ("#ifndef " ++ r).data :=
    fun r => not_ifdef_append _ r (by decide) (by decide)
  have e2 : ∀ r : String, ¬ "#ifdef".data <+: ("typedef " ++ r).data :=
    fun r => not_ifdef_append _ r (by decide) (by decide)
  have e3 : ∀ r : String, ¬ "#ifdef".data <+: ("  " ++ r).data :=
    fun r => not_ifdef_append _ r (by decide) (by decide)
  have e4 : ∀ r : String, ¬ "#ifdef".data <+: ("\x7d " ++ r).data :=
    fun r => not_ifdef_append _ r (by decide) (by decide)
  have e5 : ∀ r : String, ¬ "#ifdef".data <+: ("#define " ++ r).data :=
    fun r => not_ifdef_append _ r (by decide) (by decide)
  have e6 : ¬ "#ifdef".data <+: "#endif".data := by decide
  have e7 : ¬ "#ifdef".data <+: "typedef struct \x7b".data := by decide
  intro l hl
  unfold guardedTypedefLines at hl
  split at hl
  · simp only [List.singleton_append, List.cons_append, List.nil_append, List.mem_cons,
      List.mem_singleton, List.not_mem_nil, or_false] at hl
    rcases hl with rfl | rfl | rfl | rfl
    · simp only [String.append_assoc]; exact e1 _
    · simp only [String.append_assoc]; exact e2 _
    · simp only [String.append_assoc]; exact e5 _
    · exact e6
  · simp only [List.singleton_append, List.cons_append, List.nil_append, List.mem_cons,
      List.mem_singleton, List.not_mem_nil, or_false] at hl
    rcases hl with rfl | rfl | rfl | rfl | rfl | rfl
    · simp only [String.append_assoc]; exact e1 _
    · exact e7
    · simp only [String.append_assoc]; exact e3 _
    · simp only [String.append_assoc]; exact e4 _
    · simp only [String.append_assoc]; exact e5 _
    · exact e6

theorem prototypeLines_not_ifdef (f : funcSpec) (pfx : String) (c : Char)
    (w fp fpPair it isa cc : String) :
    ∀ l ∈ prototypeLines f pfx c w fp fpPair it isa cc, ¬ "#ifdef".data <+: l.data := by
  have e : ∀ r : String, ¬ "#ifdef".data <+: ("IMPORT CONST " ++ r).data :=
    fun r => not_ifdef_append _ r (by decide) (by decide)
  intro l hl
  unfold prototypeLines at hl
  split at hl
  · simp at hl
  · split at hl
    · simp only [List.mem_cons, List.mem_singleton, List.not_mem_nil, or_false] at hl
      rcases hl with rfl | rfl <;> (simp only [String.append_assoc]; exact e _)
    · simp at hl

theorem getPairTypeName_noNewline (s : String) (h : NoNewline s) :
    NoNewline (getPairTypeName s) := by
  rw [getPairTypeName_eq, noNewline_append, noNewline_append]
  refine ⟨⟨by decide, ?_⟩, by decide⟩
  unfold NoNewline replaceSpaces at *
  simp only [List.mem_map, not_exists, not_and]
  intro ch hch
  by_cases hsp : ch = ' '
  · simp [hsp]
  · simp only [hsp, if_false]
    intro e
    exact h (e ▸ hch)

theorem guardedTypedefLines_noNewline (arch native scalar pair : String)
    (hn : NoNewline native) (hs : NoNewline scalar) (hp : NoNewline pair) :
    ∀ l ∈ guardedTypedefLines arch native scalar pair, NoNewline l := by
  have e1 : NoNewline "#ifndef " := by decide
  have e2 : NoNewline "_DEFINED" := by decide
  have e3 : NoNewline "typedef " := by decide
  have e4 : NoNewline " " := by decide
  have e5 : NoNewline ";" := by decide
  have e6 : NoNewline "typedef struct \x7b" := by decide
  have e7 : NoNewline "  " := by decide
  have e8 : NoNewline " x, y;" := by decide
  have e9 : NoNewline "\x7d " := by decide
  have e10 : NoNewline "#define " := by decide
  have e11 : NoNewline "#endif" := by decide
  intro l hl
  unfold guardedTypedefLines at hl
  split at hl <;>
    (simp only [List.singleton_append, List.cons_append, List.nil_append, List.mem_cons,
      List.mem_singleton, List.not_mem_nil, or_false] at hl
     rcases hl with rfl | rfl | rfl | rfl | rfl | rfl <;>
       simp [noNewline_append, *])

theorem prototypeLines_noNewline (f : funcSpec) (pfx : String) (c : Char)
    (w fp fpPair it isa cc : String) (hp : NoNewline pfx) (hn : NoNewline f.name)
    (hc : c ≠ '\n') (hw : NoNewline w) (hfp : NoNewline fp) (hpair : NoNewline fpPair)
    (hit : NoNewline it) (hisa : NoNewline isa) (hcc : NoNewline cc) :
    ∀ l ∈ prototypeLines f pfx c w fp fpPair it isa cc, NoNewline l := by
  have e0 : NoNewline "" := by decide
  have e1 : NoNewline "IMPORT CONST " := by decide
  have e2 : NoNewline " " := by decide
  have e3 : NoNewline "(" := by decide
  have e4 : NoNewline ")" := by decide
  have e5 : NoNewline ";" := by decide
  have hcc2 : NoNewline (if f.funcType = 7 ∨ f.funcType = 8 then "" else cc) := by
    split
    · exact e0
    · exact hcc
  intro l hl
  unfold prototypeLines at hl
  split at hl
  · simp at hl
  · split at hl
    · rename_i shape hshape
      obtain ⟨hs1, hs2⟩ := categoryShape_noNewline hshape hfp hpair hit
      have hargs := intercalate_noNewline shape.2 hs2
      have hsym1 := symbolName_noNewline "" f.name c w f.ulp isa e0 hn hc hw hisa
      have hsym2 := symbolName_noNewline pfx f.name c w f.ulp isa hp hn hc hw hisa
      simp only [List.mem_cons, List.mem_singleton, List.not_mem_nil, or_false] at hl
      rcases hl with rfl | rfl <;>
        (simp only [noNewline_append]
         refine ⟨⟨⟨⟨⟨⟨⟨⟨e1, hs1⟩, e2⟩, ?_⟩, e3⟩, hargs⟩, e4⟩, hcc2⟩, e5⟩
         assumption)
    · simp at hl

theorem ifdefLines_append (l₁ l₂ : List String) :
    ifdefLines (l₁ ++ l₂) = ifdefLines l₁ + ifdefLines l₂ := by
  simp [ifdefLines, List.countP_append]

theorem ifdefLines_eq_zero (ls : List String) (h : ∀ l ∈ ls, ¬ "#ifdef".data <+: l.data) :
    ifdefLines ls = 0 := by
  unfold ifdefLines
  rw [List.countP_eq_zero]
  intro l hl
  simpa using h l hl

theorem ifdefLines_first (arch : String) : ifdefLines ["#ifdef " ++ arch] = 1 := by
  have hp : "#ifdef".data <+: ("#ifdef " ++ arch).data := by
    rw [String.data_append]
    exact List.IsPrefix.trans (by decide) (List.prefix_append _ _)
  simp [ifdefLines, List.countP_cons, hp]

theorem declarationOutput_lines (fl : List funcSpec) (b : Bool)
    (p wdp wsp vd vf vi arch isa : String)
    (h : ∀ f ∈ fl, 0 ≤ f.funcType ∧ f.funcType ≤ 8) (hvd : vd ≠ "-") :
    declarationOutput fl b p wdp wsp vd vf vi arch isa =
      some (unlines (["#ifdef " ++ arch, ""] ++
        guardedTypedefLines arch "svfloat64x2_t" vd (getPairTypeName vd) ++ [""] ++
        (fl.flatMap fun f => prototypeLines f p 'd' (if isa = "sve" then "x" else wdp)
          vd (getPairTypeName vd) vi isa
          (if b = true ∧ isa = "advsimd" then " __attribute__((aarch64_vector_pcs))" else "")) ++
        [""] ++
        guardedTypedefLines arch "svfloat32x2_t" vf (getPairTypeName vf) ++ [""] ++
        (fl.flatMap fun f => prototypeLines f p 'f' (if isa = "sve" then "x" else wsp)
          vf (getPairTypeName vf) vi isa
          (if b = true ∧ isa = "advsimd" then " __attribute__((aarch64_vector_pcs))" else "")) ++
        ["#endif"])) := by
  rw [declarationOutput_eq fl b p wdp wsp vd vf vi arch isa h hvd]
  apply congrArg some
  simp only [join_prototypeText _ _ _ _ _ _ _ _ _ h, pairTypedef_eq_unlines, unlines_append,
    unlines_cons, unlines_nil]
  apply String.ext
  simp [String.data_append]

/-- C13, counterexample: with the double type name `-` the declaration block
is the `#ifdef` line followed by the `#endif` line; it holds no typedef and no
guard of a pair type, neither for double nor for single precision. -/
theorem C13_counterexample :
    ∃ out, main [⟨"sin", 10, 1, 0⟩] false
        ["mkrename", "p_", "2", "4", "-", "vf", "vi", "vi2", "ARCH", "avx"] = some out ∧
      out.stdout = "#ifdef ARCH\n" ++ "#endif\n" ∧
      ¬ (("#ifndef " ++ getPairTypeName "vf" ++ "_DEFINED").data <:+: out.stdout.data) ∧
      ¬ ("typedef".data <:+: out.stdout.data) :=
  ⟨_, rfl, rfl, by decide, by decide⟩

/-- C13, amended: for a declaration-mode invocation whose parameters and
descriptor names have no newline (over a table of categories 0..8) the output
consists of newline-free lines, the first being `#ifdef <architecture>`, the
last being `#endif`, and no other line begins with `#ifdef`.  When the double
type name is not `-`, the lines are: the `#ifdef` line, an empty line, the
guarded typedef of the double pair type, an empty line, prototype lines, an
empty line, the guarded typedef of the single pair type, an empty line,
prototype lines, and the `#endif` line; each guarded typedef starts with
`#ifndef <pairName>_DEFINED` and ends with `#define <pairName>_DEFINED` and
`#endif`, where the pair name is `getPairTypeName` of the scalar type name. -/
theorem C13_block_lines (fl : List funcSpec) (b : Bool)
    (prog a1 wdp wsp vd vf vi vi2 arch : String) (isaArg : Option String)
    (htable : ∀ f ∈ fl, 0 ≤ f.funcType ∧ f.funcType ≤ 8)
    (hnames : ∀ f ∈ fl, NoNewline f.name)
    (ha1 : NoNewline a1) (hwdp : NoNewline wdp) (hwsp : NoNewline wsp)
    (hvd : NoNewline vd) (hvf : NoNewline vf) (hvi : NoNewline vi)
    (harch : NoNewline arch) (hisa : NoNewline (isaArg.getD "")) :
    ∃ lines : List String,
      (main fl b (prog :: a1 :: wdp :: wsp :: vd :: vf :: vi :: vi2 :: arch ::
          isaArg.toList)).map Outcome.stdout = some (unlines lines) ∧
      (∀ l ∈ lines, NoNewline l) ∧
      lines.head? = some ("#ifdef " ++ arch) ∧
      lines.getLast? = some "#endif" ∧
      ifdefLines lines = 1 ∧
      (vd ≠ "-" → ∃ dl sl : List String,
        lines = ["#ifdef " ++ arch, ""] ++
          guardedTypedefLines arch "svfloat64x2_t" vd (getPairTypeName vd) ++ [""] ++ dl ++
          [""] ++
          guardedTypedefLines arch "svfloat32x2_t" vf (getPairTypeName vf) ++ [""] ++ sl ++
          ["#endif"] ∧
        (∀ l ∈ dl ++ sl, "IMPORT CONST ".data <+: l.data) ∧
        ∀ native scalar pair : String, ∃ body : List String,
          guardedTypedefLines arch native scalar pair =
            ["#ifndef " ++ pair ++ "_DEFINED"] ++ body ++
            ["#define " ++ pair ++ "_DEFINED", "#endif"]) := by
  have hblank : NoNewline "" := by decide
  have hendif : NoNewline "#endif" := by decide
  have hfirst : NoNewline ("#ifdef " ++ arch) := by
    rw [noNewline_append]; exact ⟨by decide, harch⟩
  by_cases hdash : vd = "-"
  · subst hdash
    refine ⟨["#ifdef " ++ arch, "#endif"], ?_, ?_, rfl, rfl, ?_, fun h => absurd rfl h⟩
    · rw [main_declaration, declarationOutput_dash, Option.map_some', Option.map_some']
      apply congrArg some
      simp only [unlines_cons, unlines_nil]
      apply String.ext
      simp [String.data_append]
    · intro l hl
      simp only [List.mem_cons, List.mem_singleton, List.not_mem_nil, or_false] at hl
      rcases hl with rfl | rfl
      · exact hfirst
      · exact hendif
    · have e : ["#ifdef " ++ arch, "#endif"] = ["#ifdef " ++ arch] ++ ["#endif"] := rfl
      rw [e, ifdefLines_append, ifdefLines_first,
        ifdefLines_eq_zero ["#endif"] (by intro l hl; simp at hl; subst hl; decide)]
  · have hpfx : NoNewline (if a1 = "-" then "" else a1) := by
      split
      · exact hblank
      · exact ha1
    have hwd : NoNewline (if isaArg.getD "" = "sve" then "x" else wdp) := by
      split
      · decide
      · exact hwdp
    have hws : NoNewline (if isaArg.getD "" = "sve" then "x" else wsp) := by
      split
      · decide
      · exact hwsp
    have hcc : NoNewline (if b = true ∧ isaArg.getD "" = "advsimd" then
        " __attribute__((aarch64_vector_pcs))" else "") := by
      split
      · decide
      · exact hblank
    have hgd := guardedTypedefLines_noNewline arch "svfloat64x2_t" vd (getPairTypeName vd)
      (by decide) hvd (getPairTypeName_noNewline vd hvd)
    have hgs := guardedTypedefLines_noNewline arch "svfloat32x2_t" vf (getPairTypeName vf)
      (by decide) hvf (getPairTypeName_noNewline vf hvf)
    have hpl : ∀ (c : Char) (w fp : String), c ≠ '\n' → NoNewline w → NoNewline fp →
        ∀ l ∈ fl.flatMap (fun f => prototypeLines f (if a1 = "-" then "" else a1) c w fp
          (getPairTypeName fp) vi (isaArg.getD "")
          (if b = true ∧ isaArg.getD "" = "advsimd" then
            " __attribute__((aarch64_vector_pcs))" else "")), NoNewline l := by
      intro c w fp hc hw hfp l hl
      obtain ⟨f, hf, hlf⟩ := List.mem_flatMap.mp hl
      exact prototypeLines_noNewline f _ c w fp _ vi _ _ hpfx (hnames f hf) hc hw hfp
        (getPairTypeName_noNewline fp hfp) hvi hisa hcc l hlf
    have hpi : ∀ (c : Char) (w fp : String),
        ∀ l ∈ fl.flatMap (fun f => prototypeLines f (if a1 = "-" then "" else a1) c w fp
          (getPairTypeName fp) vi (isaArg.getD "")
          (if b = true ∧ isaArg.getD "" = "advsimd" then
            " __attribute__((aarch64_vector_pcs))" else "")),
          ¬ "#ifdef".data <+: l.data ∧ "IMPORT CONST ".data <+: l.data := by
      intro c w fp l hl
      obtain ⟨f, hf, hlf⟩ := List.mem_flatMap.mp hl
      refine ⟨prototypeLines_not_ifdef f _ c w fp _ vi _ _ l hlf, ?_⟩
      unfold prototypeLines at hlf
      split at hlf
      · simp at hlf
      · split at hlf
        · simp only [List.mem_cons, List.mem_singleton, List.not_mem_nil, or_false] at hlf
          rcases hlf with rfl | rfl <;>
            (simp only [String.append_assoc, String.data_append]
             exact List.prefix_append _ _)
        · simp at hlf
    have hb0 : ∀ l ∈ [""], ¬ "#ifdef".data <+: l.data := by
      intro l hl; simp at hl; subst hl; decide
    apply Exists.intro
    refine And.intro ?hout ?rest
    case hout =>
      rw [main_declaration, declarationOutput_lines _ _ _ _ _ _ _ _ _ _ htable hdash,
        Option.map_some', Option.map_some']
    refine ⟨?_, ?_, ?_, ?_, fun _ => ⟨_, _, rfl, ?_, ?_⟩⟩
    · have hs : ∀ x : String, NoNewline x → ∀ l ∈ [x], NoNewline l := by
        intro x hx l hl
        rw [List.mem_singleton.mp hl]; exact hx
      have h2 : ∀ l ∈ ["#ifdef " ++ arch, ""], NoNewline l := by
        intro l hl
        simp only [List.mem_cons, List.mem_singleton, List.not_mem_nil, or_false] at hl
        rcases hl with rfl | rfl
        · exact hfirst
        · exact hblank
      simp only [List.forall_mem_append]
      exact ⟨⟨⟨⟨⟨⟨⟨⟨h2, hgd⟩, hs _ hblank⟩, hpl 'd' _ vd (by decide) hwd hvd⟩, hs _ hblank⟩,
        hgs⟩, hs _ hblank⟩, hpl 'f' _ vf (by decide) hws hvf⟩, hs _ hendif⟩
    · rfl
    · exact List.getLast?_concat _
    · have e : ∀ x : String, ["#ifdef " ++ arch, x] = ["#ifdef " ++ arch] ++ [x] :=
        fun _ => rfl
      rw [e]
      simp only [ifdefLines_append]
      rw [ifdefLines_first, ifdefLines_eq_zero [""] hb0,
        ifdefLines_eq_zero _ (guardedTypedefLines_not_ifdef arch "svfloat64x2_t" vd _),
        ifdefLines_eq_zero _ (guardedTypedefLines_not_ifdef arch "svfloat32x2_t" vf _),
        ifdefLines_eq_zero _ (fun l hl => (hpi 'd' _ vd l hl).1),
        ifdefLines_eq_zero _ (fun l hl => (hpi 'f' _ vf l hl).1),
        ifdefLines_eq_zero ["#endif"] (by intro l hl; simp at hl; subst hl; decide)]
    · intro l hl
      rcases List.mem_append.mp hl with h | h
      · exact (hpi 'd' _ vd l h).2
      · exact (hpi 'f' _ vf l h).2
    · intro native scalar pair
      exact ⟨_, rfl⟩

/-- Instance of C13 as amended: the table holding `sin` of category 0 with the
parameters `p_`, `2`, `4`, `vd`, `vf`, `vi`, `vi2`, `ARCH`, `avx`. -/
theorem C13_block_lines_witness :
    ∃ lines : List String,
      (main [⟨"sin", 10, 1, 0⟩] false ("mkrename" :: "p_" :: "2" :: "4" :: "vd" :: "vf" ::
          "vi" :: "vi2" :: "ARCH" :: (some "avx").toList)).map Outcome.stdout =
        some (unlines lines) ∧
      (∀ l ∈ lines, NoNewline l) ∧
      lines.head? = some ("#ifdef " ++ "ARCH") ∧
      lines.getLast? = some "#endif" ∧
      ifdefLines lines = 1 ∧
      ∃ dl sl : List String,
        lines = ["#ifdef " ++ "ARCH", ""] ++
          guardedTypedefLines "ARCH" "svfloat64x2_t" "vd" (getPairTypeName "vd") ++ [""] ++ dl ++
          [""] ++
          guardedTypedefLines "ARCH" "svfloat32x2_t" "vf" (getPairTypeName "vf") ++ [""] ++ sl ++
          ["#endif"] := by
  obtain ⟨lines, h1, h2, h3, h4, h5, h6⟩ :=
    C13_block_lines [⟨"sin", 10, 1, 0⟩] false "mkrename" "p_" "2" "4" "vd" "vf" "vi" "vi2"
      "ARCH" (some "avx") (by decide) (by decide) (by decide) (by decide) (by decide)
      (by decide) (by decide) (by decide) (by decide) (by decide)
  obtain ⟨dl, sl, h7, _⟩ := h6 (by decide)
  exact ⟨lines, h1, h2, h3, h4, h5, dl, sl, h7⟩

end Mkrename
